import Mathlib

/-!
Verification development for the alpha-tech-x send console.

The TypeScript sources are shallowly embedded: JavaScript strings are
modelled as `List Char` (written `Str`), `Record` objects keyed by strings
as association lists or lookup functions, nullable values as `Option`, and
the external collaborators (identity provider, contact store, audit-log
store, mail transport) as explicit oracle parameters.  All definitions are
translated from the repository sources; the file each definition comes
from is named in its doc comment.
-/

namespace AlphaTechX

/-- JavaScript strings, modelled as lists of characters. -/
abbrev Str := List Char

/-- Coerce a Lean string literal to the `Str` model. -/
def lit (s : String) : Str := s.toList

/-- ASCII whitespace recognised by `String.prototype.trim`. -/
def isJsWhitespace (c : Char) : Bool :=
  c = ' ' || c = '\t' || c = '\n' || c = '\r' || c = '\x0b' || c = '\x0c'

/-- Model of `value.trim()` (from the normalisation helpers used across
`src/components/upload-send-console.tsx` and `src/app/actions/send-logs.ts`). -/
def strTrim (s : Str) : Str :=
  ((s.dropWhile isJsWhitespace).reverse.dropWhile isJsWhitespace).reverse

/-- Model of `value.toLowerCase()` for the ASCII range used by the code. -/
def strToLower (s : Str) : Str := s.map Char.toLower

/-- Model of `String.prototype.split` with a one-character separator,
matching the JavaScript behaviour (`"".split("/") = [""]`). -/
def splitOnChar (sep : Char) : Str → List Str
  | [] => [[]]
  | c :: rest =>
    match splitOnChar sep rest with
    | [] => if c = sep then [[], [c]] else [[c]]
    | h :: t => if c = sep then [] :: h :: t else (c :: h) :: t

/-- Model of `getBaseName` in `src/components/upload-send-console.tsx`:
`pathname.split("/")` followed by taking the last part (with the
`?? pathname` fallback). -/
def getBaseName (pathname : Str) : Str :=
  (splitOnChar '/' pathname).getLastD pathname

/-- Model of `normalizeAccountKey` in
`src/components/upload-send-console.tsx` (the `String(value ?? "")`
conversion is applied by callers where the input is not a string). -/
def normalizeAccountKey (value : Str) : Str := strTrim value

/-- Model of `isPdf` in `src/components/upload-send-console.tsx`:
`filename.toLowerCase().endsWith(".pdf")`. -/
def isPdf (filename : Str) : Bool :=
  (lit ".pdf").isSuffixOf (strToLower filename)

/-- Model of `isIgnoredAdminPdf` in `src/components/upload-send-console.tsx`. -/
def isIgnoredAdminPdf (filename : Str) : Bool :=
  let baseName := getBaseName filename
  (lit "Bill_Admin_").isPrefixOf baseName ||
    (lit "Summary_Admin_Closing_Adjustment_").isPrefixOf baseName

/-- Row sendability status (`"Pending" | "Blocked"` in
`src/components/upload-send-console.tsx`). -/
inductive RowStatus where
  | Pending
  | Blocked
deriving DecidableEq, Repr

/-- Truthiness of a nullable JavaScript string (`null` and `""` are falsy). -/
def strTruthy : Option Str → Bool
  | none => false
  | some s => s ≠ []

/-- Model of `getStatusFromEmail` in `src/components/upload-send-console.tsx`:
`email ? "Pending" : "Blocked"`. -/
def getStatusFromEmail (email : Option Str) : RowStatus :=
  if strTruthy email then .Pending else .Blocked

/-- Model of the `ParsedBillRow` type in `src/components/upload-send-console.tsx`. -/
structure ParsedBillRow where
  account_key : Str
  pdf_filename : Str
  zip_entry_path : Str
  trade_date : Option Str
deriving DecidableEq, Repr

/-- Model of the `BillRow` type in `src/components/upload-send-console.tsx`. -/
structure BillRow where
  account_key : Str
  pdf_filename : Str
  zip_entry_path : Str
  trade_date : Option Str
  contact_name : Option Str
  contact_email : Option Str
  status : RowStatus
deriving DecidableEq, Repr

/-- Model of the `Contact` type in `src/lib/contacts/types.ts`
(`updated_at` is irrelevant to the console logic and omitted). -/
structure Contact where
  account_key : Str
  name : Option Str
  email : Str
deriving DecidableEq, Repr

/-- One entry of the decoded JSZip archive: its full path and whether it is
a directory entry. -/
structure ZipEntry where
  name : Str
  dir : Bool
deriving DecidableEq, Repr

/-- Model of `uniqueAccountKeys` in `src/components/upload-send-console.tsx`:
trim, drop empties, and deduplicate preserving first occurrence (the
`Array.from(new Set(...))` order). -/
def uniqueAccountKeys (keys : List Str) : List Str :=
  ((keys.map normalizeAccountKey).filter (· ≠ [])).eraseDups

/-- Model of `mergeRowsWithContacts` in
`src/components/upload-send-console.tsx`; the `Record<string, Contact>`
is modelled as a lookup function. -/
def mergeRowsWithContacts (rows : List ParsedBillRow)
    (contactsByKey : Str → Option Contact) : List BillRow :=
  rows.map fun row =>
    let contact := contactsByKey row.account_key
    let contactEmail : Option Str := contact.map (·.email)
    { account_key := row.account_key
      pdf_filename := row.pdf_filename
      zip_entry_path := row.zip_entry_path
      trade_date := row.trade_date
      contact_name := (contact.map (·.name)).getD none
      contact_email := contactEmail
      status := getStatusFromEmail contactEmail }

/-- Model of the row-update function inside `syncContactsForKeys` in
`src/components/upload-send-console.tsx`: rows whose key is in the
refreshed set are recomputed against the freshly fetched contacts, others
are returned untouched. -/
def syncRowsWithContacts (rows : List BillRow) (keysToRefresh : List Str)
    (contactsByKey : Str → Option Contact) : List BillRow :=
  let uniqueKeys := uniqueAccountKeys keysToRefresh
  rows.map fun row =>
    if row.account_key ∈ uniqueKeys then
      let contact := contactsByKey row.account_key
      let contactEmail : Option Str := contact.map (·.email)
      { row with
        contact_name := (contact.map (·.name)).getD none
        contact_email := contactEmail
        status := getStatusFromEmail contactEmail }
    else row

/-- Index of the first `'_'`, modelling `indexOf("_")` (with `none` for `-1`). -/
def firstUnderscoreIdx (s : Str) : Option Nat := s.findIdx? (· = '_')

/-- Model of `String.prototype.slice` with non-negative clamped indices
(the only case exercised by the parser, where the end index is provably
at least 4 characters before the end). -/
def strSlice (s : Str) (start stop : Nat) : Str := (s.take stop).drop start

/-- The per-file body of the `parseFallbackRows` loop in
`src/components/upload-send-console.tsx`, as a partial map from a zip
entry to the parsed row it contributes. -/
def parseFallbackRowOfFile (file : ZipEntry) : Option ParsedBillRow :=
  if file.dir then none
  else
    let baseName := getBaseName file.name
    if !(lit "Bill_").isPrefixOf baseName then none
    else if !isPdf baseName || isIgnoredAdminPdf baseName then none
    else
      let keyAndDate := baseName.drop (lit "Bill_").length
      match firstUnderscoreIdx keyAndDate with
      | none => none
      | some idx =>
        if idx = 0 then none
        else
          let accountKey := normalizeAccountKey (strSlice keyAndDate 0 idx)
          if accountKey = [] then none
          else
            let tradeDateValue :=
              strSlice keyAndDate (idx + 1) (keyAndDate.length - (lit ".pdf").length)
            some
              { account_key := accountKey
                pdf_filename := baseName
                zip_entry_path := file.name
                trade_date :=
                  if strTrim tradeDateValue = [] then none
                  else some (strTrim tradeDateValue) }

/-- Model of `parseFallbackRows` in `src/components/upload-send-console.tsx`. -/
def parseFallbackRows (files : List ZipEntry) : List ParsedBillRow :=
  files.filterMap parseFallbackRowOfFile

/-- JSON values, for the parsed content of `manifest.json`.  Numbers carry
their JavaScript string rendering, which is all the console ever uses. -/
inductive Json where
  | null
  | bool (b : Bool)
  | num (render : Str)
  | str (s : Str)
  | arr (items : List Json)
  | obj (fields : List (Str × Json))

/-- Field lookup on a parsed JSON value, modelling JavaScript property
access: objects expose their fields, arrays expose no named fields (but do
pass the `typeof item === "object"` check), primitives have none. -/
def Json.field : Json → Str → Option Json
  | .obj fields, name => fields.lookup name
  | _, _ => none

/-- Whether `item !== null && typeof item === "object"` holds. -/
def Json.isObjectLike : Json → Bool
  | .obj _ => true
  | .arr _ => true
  | _ => false

/-- Model of the JavaScript `String(...)` conversion on a JSON value. -/
def Json.toStr : Json → Str
  | .null => lit "null"
  | .bool true => lit "true"
  | .bool false => lit "false"
  | .num render => render
  | .str s => s
  | .arr items =>
    ((items.attach.map fun x => Json.toStr x.val).intersperse (lit ",")).flatten
  | .obj _ => lit "[object Object]"
decreasing_by
  have := List.sizeOf_lt_of_mem x.property
  simp only [Json.arr.sizeOf_spec]
  omega

/-- Model of `String(entry.field ?? "")` for a possibly-missing property. -/
def jsStringOrEmpty : Option Json → Str
  | none => []
  | some .null => []
  | some j => j.toStr

/-- The body of the `manifestSuccess.flatMap` in `parseUploadedZip`
(`src/components/upload-send-console.tsx`): one manifest success entry to
the rows it contributes. -/
def manifestRowsOfItem (tradeDate : Option Str) (item : Json) : List ParsedBillRow :=
  if ¬ item.isObjectLike then []
  else
    let accountKey := normalizeAccountKey (jsStringOrEmpty (item.field (lit "key")))
    let pdfPath := strTrim (jsStringOrEmpty (item.field (lit "pdf")))
    if accountKey = [] || pdfPath = [] then []
    else if ¬ isPdf pdfPath || isIgnoredAdminPdf pdfPath then []
    else
      [{ account_key := accountKey
         pdf_filename := getBaseName pdfPath
         zip_entry_path := pdfPath
         trade_date := tradeDate }]

/-- Which parse path produced the rows (`"manifest" | "fallback"`). -/
inductive ParseSource where
  | manifest
  | fallback
deriving DecidableEq, Repr

/-- Model of the uploaded archive as seen by `parseUploadedZip`: its
entries, and the outcome of looking up and JSON-parsing `manifest.json`
(`none`: no manifest entry; `some none`: present but invalid JSON;
`some (some j)`: parses to `j`). -/
structure ZipModel where
  files : List ZipEntry
  manifest : Option (Option Json)

/-- Whether a named field of a JSON value is an array (the
`Array.isArray(manifestData.success)` test). -/
def Json.fieldIsArr (j : Json) (name : Str) : Bool :=
  match j.field name with
  | some (.arr _) => true
  | _ => false

/-- Model of the parsing core of `parseUploadedZip` in
`src/components/upload-send-console.tsx`: produces the parsed rows, the
source tag, and the diagnostic messages accumulated before the
zero-row check. -/
def parseZipRows (zip : ZipModel) : List ParsedBillRow × ParseSource × List Str :=
  match zip.manifest with
  | some (some manifestData) =>
    let tradeDate : Option Str :=
      match manifestData.field (lit "trade_date") with
      | some (.str s) => if strTrim s = [] then none else some (strTrim s)
      | _ => none
    let manifestSuccess : List Json :=
      match manifestData.field (lit "success") with
      | some (.arr items) => items
      | _ => []
    (manifestSuccess.flatMap (manifestRowsOfItem tradeDate), .manifest, [])
  | some none =>
    (parseFallbackRows zip.files, .fallback, [lit "manifest.json invalid JSON"])
  | none =>
    (parseFallbackRows zip.files, .fallback, [])

/-- The diagnostics of a parse run including the zero-row check of
`parseUploadedZip` ("No bill PDFs found"). -/
def parseZipMessages (zip : ZipModel) : List Str :=
  let (rows, _, messages) := parseZipRows zip
  if rows.length = 0 then messages ++ [lit "No bill PDFs found"] else messages

/-- The `(status, sent_at)` record returned per key by the audit-log query
(`LastSendStatus` in `src/app/actions/send-logs.ts`). -/
structure LastSendStatus where
  status : Option Str
  sent_at : Option Str
deriving DecidableEq, Repr

/-- One row as returned by the `send_logs` store query in
`getLastSendStatusForZip` (`src/app/actions/send-logs.ts`): the selected
columns, with `sent_at` as `none` when the store value is not a string. -/
structure SendLogQueryRow where
  account_key : Str
  status : Str
  sent_at : Option Str
deriving DecidableEq, Repr

/-- The refined status stored for one query row: the literal status when it
is `"sent"` or `"failed"`, otherwise `null`. -/
def lastStatusOfRow (row : SendLogQueryRow) : LastSendStatus :=
  { status :=
      if row.status = lit "sent" || row.status = lit "failed" then some row.status
      else none
    sent_at := row.sent_at }

/-- One step of the `reduce` in `getLastSendStatusForZip`
(`src/app/actions/send-logs.ts`): skip rows with an empty trimmed key or a
key already present in the accumulator (`if (!accountKey || acc[accountKey])
return acc`), otherwise record the row's refined status. -/
def lastStatusStep (acc : List (Str × LastSendStatus)) (row : SendLogQueryRow) :
    List (Str × LastSendStatus) :=
  let accountKey := normalizeAccountKey row.account_key
  if accountKey = [] || (acc.lookup accountKey).isSome then acc
  else acc ++ [(accountKey, lastStatusOfRow row)]

/-- Model of the `reduce` in `getLastSendStatusForZip`
(`src/app/actions/send-logs.ts`): walk the store-returned rows in order
and keep, per non-empty trimmed key, the first row seen. -/
def lastStatusFromRows (data : List SendLogQueryRow) : List (Str × LastSendStatus) :=
  data.foldl lastStatusStep []

/-- Model of `getLastSendStatusForZip` in `src/app/actions/send-logs.ts`.
The store is an oracle: `queryData` is what the `send_logs` select (which
requests ordering by `sent_at` descending) returned, `queryError` whether
it failed. -/
def getLastSendStatusForZip (isAdmin : Bool) (zip_filename : Str)
    (accountKeys : List Str) (queryData : List SendLogQueryRow)
    (queryError : Bool) : List (Str × LastSendStatus) :=
  if ¬ isAdmin then []
  else
    let zipFilename := strTrim zip_filename
    let normalizedKeys := uniqueAccountKeys accountKeys
    if zipFilename = [] || normalizedKeys = [] then []
    else if queryError then []
    else lastStatusFromRows queryData

/-- Byte-wise lexicographic comparison of character lists, used to compare
ISO timestamp strings the way the store's `order("sent_at")` does. -/
def strLe : Str → Str → Bool
  | [], _ => true
  | _ :: _, [] => false
  | a :: as, b :: bs =>
    if a.val < b.val then true
    else if b.val < a.val then false
    else strLe as bs

/-- Ordering on nullable `sent_at` values, with `null` sorting below every
timestamp. -/
def sentAtLe : Option Str → Option Str → Bool
  | none, _ => true
  | some _, none => false
  | some a, some b => strLe a b

/-- The reading of the spec sentence for the audit-log query, stated
independently of the code: per key, the maximum entry by `sent_at` over
all matching entries, computed by an explicit client-side fold.  Used only
to compare the code's behaviour against the spec's words. -/
def specClientSideLastStatus (data : List SendLogQueryRow) (key : Str) :
    Option LastSendStatus :=
  let matching := data.filter (fun row => normalizeAccountKey row.account_key = key)
  (matching.foldl
    (fun best row =>
      match best with
      | none => some row
      | some b => if sentAtLe b.sent_at row.sent_at then some row else some b)
    none).map lastStatusOfRow

/-- JavaScript `\w` (ASCII word character), as used by `\b` in the masking
regex of the send-email route. -/
def isWordChar (c : Char) : Bool := c.isAlphanum || c = '_'

/-- Character class `[A-Z0-9._%+-]` under the `i` flag (local part of
`EMAIL_IN_TEXT_PATTERN` in the send-email route). -/
def isLocalChar (c : Char) : Bool :=
  c.isAlphanum || c = '.' || c = '_' || c = '%' || c = '+' || c = '-'

/-- Character class `[A-Z0-9.-]` under the `i` flag (domain part of
`EMAIL_IN_TEXT_PATTERN`). -/
def isDomainChar (c : Char) : Bool := c.isAlphanum || c = '.' || c = '-'

/-- Whether a `\b` word boundary holds between the previous character (or
start of input) and the current character. -/
def boundaryB (prev : Option Char) (c : Char) : Bool :=
  (match prev with
    | none => false
    | some p => isWordChar p) != isWordChar c

/-- One candidate TLD split of the maximal domain-character run `drun` at
dot index `j`, mirroring how `[A-Z0-9.-]+\.[A-Z]{2,}\b` can close a match:
the part before the dot, the greedy letter run after it (which must have
length at least 2), and the word boundary after that run.  `next?` is the
character following `drun` in the input.  Returns the domain part before
the dot, the TLD, and the unconsumed remainder of `drun`. -/
def tldAt (drun : Str) (next? : Option Char) (j : Nat) : Option (Str × Str × Str) :=
  if j = 0 then none
  else
    let dpre := drun.take j
    let afterDot := drun.drop (j + 1)
    let t := afterDot.takeWhile Char.isAlpha
    let leftover := afterDot.drop t.length
    let boundaryChar : Option Char :=
      match leftover with
      | [] => next?
      | c :: _ => some c
    if decide (2 ≤ t.length) &&
        (match boundaryChar with
          | none => true
          | some c => !isWordChar c) then
      some (dpre, t, leftover)
    else none

/-- Indices of the dots inside the domain-character run. -/
def dotPositions (drun : Str) : List Nat :=
  (List.range drun.length).filter (fun j => drun[j]? = some '.')

/-- Greedy choice of the TLD split: the regex engine prefers the longest
`[A-Z0-9.-]+` part, i.e. the rightmost viable dot. -/
def pickTld (drun : Str) (next? : Option Char) : Option (Str × Str × Str) :=
  ((dotPositions drun).reverse.map (tldAt drun next?)).findSome? id

/-- Attempt to match `EMAIL_IN_TEXT_PATTERN`
(`/\b[A-Z0-9._%+-]+@[A-Z0-9.-]+\.[A-Z]{2,}\b/gi` in the send-email route)
at the start of `s`, where `prev` is the character before `s` in the whole
input.  Returns the matched text and the rest of the input. -/
def matchEmail (prev : Option Char) (s : Str) : Option (Str × Str) :=
  match s with
  | [] => none
  | c :: _ =>
    if !boundaryB prev c then none
    else
      let l := s.takeWhile isLocalChar
      if l = [] then none
      else
        match s.drop l.length with
        | '@' :: s2 =>
          let drun := s2.takeWhile isDomainChar
          let afterRun := s2.drop drun.length
          match pickTld drun afterRun.head? with
          | some (dpre, t, leftover) =>
            some (l ++ '@' :: (dpre ++ '.' :: t), leftover ++ afterRun)
          | none => none
        | _ => none

/-- Model of `maskEmail` in the send-email route: lowercase, split at `@`,
keep the first one or two characters of the local part. -/
def maskEmail (email : Str) : Str :=
  let normalized := strToLower (strTrim email)
  let parts := splitOnChar '@' normalized
  let localPart := parts.getD 0 []
  match parts[1]? with
  | none => lit "***"
  | some domain =>
    if localPart = [] || domain = [] then lit "***"
    else if localPart.length ≤ 2 then localPart.take 1 ++ lit "***@" ++ domain
    else localPart.take 2 ++ lit "***@" ++ domain

/-- Fuelled scan of an input replacing every match of
`EMAIL_IN_TEXT_PATTERN` with its mask, mirroring
`message.replace(EMAIL_IN_TEXT_PATTERN, maskEmail)`.  Each step consumes
at least one character, so fuel equal to the input length never runs out
(the fuel-exhausted branch is unreachable from `sanitizeErrorMessage`). -/
def sanitizeGo : Nat → Option Char → Str → Str
  | 0, _, s => s
  | _ + 1, _, [] => []
  | fuel + 1, prev, c :: rest =>
    match matchEmail prev (c :: rest) with
    | some (m, r) => maskEmail m ++ sanitizeGo fuel m.getLast? r
    | none => c :: sanitizeGo fuel (some c) rest

/-- Model of `sanitizeErrorMessage` in the send-email route. -/
def sanitizeErrorMessage (message : Str) : Str :=
  sanitizeGo message.length none message

/-- Model of `EMAIL_PATTERN.test` in the send-email route
(`/^[^\s@]+@[^\s@]+\.[^\s@]+$/`): a non-empty run of non-space non-`@`
characters, an `@`, then a tail of non-space non-`@` characters containing
a dot with at least one character on each side. -/
def validEmailB (s : Str) : Bool :=
  let emailChar : Char → Bool := fun c => !isJsWhitespace c && c ≠ '@'
  let localRun := s.takeWhile emailChar
  match s.drop localRun.length with
  | '@' :: domainPart =>
    localRun ≠ [] && domainPart.all emailChar &&
      ((domainPart.drop 1).dropLast).contains '.'
  | _ => false

/-- Base64 alphabet characters accepted by `Buffer.from(s, "base64")`. -/
def isBase64Char (c : Char) : Bool := c.isAlphanum || c = '+' || c = '/'

/-- Byte length of the buffer `Buffer.from(s, "base64")` produces: three
bytes for every four alphabet characters, non-alphabet characters ignored. -/
def base64DecodedLength (s : Str) : Nat :=
  ((s.filter isBase64Char).length * 3) / 4

/-- The parsed JSON request body of POST /api/send-email
(`SendEmailRequestBody` in the route).  Each field carries the string
rendering of the supplied value, `none` when absent or null (the route
applies `String(value ?? "").trim()` to every field). -/
structure SendEmailBody where
  zip_filename : Option Str
  account_key : Option Str
  trade_date : Option Str
  to_email : Option Str
  to_name : Option Str
  filename : Option Str
  pdf_base64 : Option Str
deriving DecidableEq, Repr

/-- Model of `toStringOrEmpty` in the send-email route. -/
def toStringOrEmpty (value : Option Str) : Str := strTrim (value.getD [])

/-- Model of `SendLogInput` in the send-email route. -/
structure SendLogInput where
  zip_filename : Str
  account_key : Str
  trade_date : Option Str
  to_email : Str
  to_name : Option Str
  status : Str
  error : Option Str
  message_id : Option Str
  sent_by_auth_user_id : Str
deriving DecidableEq, Repr

/-- Outcome of the Gmail send attempt (the body of the route's `try`):
either the client construction or `gmail.users.messages.send` threw with
the given `error.message` (empty for non-`Error` throws), or the call
replied with the given message and thread identifiers. -/
inductive TransportReply where
  | threw (message : Str)
  | replied (messageId : Option Str) (threadId : Option Str)
deriving DecidableEq, Repr

/-- Ambient inputs of one POST /api/send-email request: session claims,
user, admin capability, the `GMAIL_SENDER_EMAIL` environment variable,
the `dryRun=1` query flag, and the transport oracle. -/
structure RouteEnv where
  authenticated : Bool
  userId : Option Str
  userEmailAdmin : Bool
  gmailSenderEmail : Option Str
  dryRun : Bool
  transport : TransportReply
deriving DecidableEq, Repr

/-- The JSON response of the route, flattened to the fields the console
and the claims inspect. -/
structure RouteResponse where
  ok : Bool
  status : Nat
  error : Option Str
  dryRun : Bool
  messageId : Option Str
deriving DecidableEq, Repr

/-- One request's externally visible effects: the response, the send-log
rows whose insertion was attempted (insert failures are swallowed by
`writeSendLog`), and whether the transport attempt was entered. -/
structure RouteResult where
  response : RouteResponse
  logs : List SendLogInput
  mailCalled : Bool
deriving DecidableEq, Repr

/-- Model of `badRequest` in the send-email route. -/
def badRequestResponse (error : Str) : RouteResponse :=
  { ok := false, status := 400, error := some error, dryRun := false
    messageId := none }

/-- The 401 response shared by the three authorization failures. -/
def notAuthorizedResponse : RouteResponse :=
  { ok := false, status := 401, error := some (lit "Not authorized.")
    dryRun := false, messageId := none }

/-- Model of `POST` in the send-email route (src/app/api/send-email,
provided as `src/unnamed/part_005`): authorization, input validation,
sender-configuration check, the dry-run short-circuit, the Gmail call and
the audit-log writes.  `body?` is `none` when `request.json()` threw. -/
def sendEmailPOST (env : RouteEnv) (body? : Option SendEmailBody) : RouteResult :=
  if ¬ env.authenticated then ⟨notAuthorizedResponse, [], false⟩
  else
    match env.userId with
    | none => ⟨notAuthorizedResponse, [], false⟩
    | some userId =>
      if ¬ env.userEmailAdmin then ⟨notAuthorizedResponse, [], false⟩
      else
        match body? with
        | none => ⟨badRequestResponse (lit "Invalid request body."), [], false⟩
        | some body =>
          let zipFilename := toStringOrEmpty body.zip_filename
          let accountKey := toStringOrEmpty body.account_key
          let tradeDateRaw := toStringOrEmpty body.trade_date
          let tradeDate : Option Str :=
            if tradeDateRaw = [] then none else some tradeDateRaw
          let toEmail := strToLower (toStringOrEmpty body.to_email)
          let toNameRaw := toStringOrEmpty body.to_name
          let toName : Option Str := if toNameRaw = [] then none else some toNameRaw
          let filename := toStringOrEmpty body.filename
          let pdfBase64 := toStringOrEmpty body.pdf_base64
          if zipFilename = [] then
            ⟨badRequestResponse (lit "zip_filename is required."), [], false⟩
          else if accountKey = [] then
            ⟨badRequestResponse (lit "account_key is required."), [], false⟩
          else if ¬ (validEmailB toEmail && toEmail.contains '@') then
            ⟨badRequestResponse (lit "to_email must be a valid email address."), [], false⟩
          else if ¬ isPdf filename then
            ⟨badRequestResponse (lit "filename must end with .pdf."), [], false⟩
          else if pdfBase64 = [] then
            ⟨badRequestResponse (lit "pdf_base64 is required."), [], false⟩
          else if base64DecodedLength pdfBase64 = 0 then
            ⟨badRequestResponse (lit "pdf attachment must be non-empty."), [], false⟩
          else
            let senderEmail := strTrim (env.gmailSenderEmail.getD [])
            let mkLog : Str → Option Str → Option Str → SendLogInput :=
              fun status error messageId =>
                { zip_filename := zipFilename, account_key := accountKey
                  trade_date := tradeDate, to_email := toEmail, to_name := toName
                  status := status, error := error, message_id := messageId
                  sent_by_auth_user_id := userId }
            if senderEmail = [] || ¬ validEmailB senderEmail then
              let message := lit "GMAIL_SENDER_EMAIL is missing or invalid."
              ⟨{ ok := false, status := 500, error := some message, dryRun := false
                 messageId := none },
               [mkLog (lit "failed") (some message) none], false⟩
            else if env.dryRun then
              ⟨{ ok := true, status := 200, error := none, dryRun := true
                 messageId := none }, [], false⟩
            else
              match env.transport with
              | .threw rawMessage =>
                let message := sanitizeErrorMessage
                  (if strTrim rawMessage = [] then lit "Failed to send email."
                   else rawMessage)
                ⟨{ ok := false, status := 500, error := some message, dryRun := false
                   messageId := none },
                 [mkLog (lit "failed") (some message) none], true⟩
              | .replied messageId _threadId =>
                match messageId with
                | none =>
                  let message := lit "Failed to send email."
                  ⟨{ ok := false, status := 500, error := some message
                     dryRun := false, messageId := none },
                   [mkLog (lit "failed") (some message) none], true⟩
                | some mid =>
                  ⟨{ ok := true, status := 200, error := none, dryRun := false
                     messageId := some mid },
                   [mkLog (lit "sent") none (some mid)], true⟩

/-- Per-row send state (`SendState` in `src/components/upload-send-console.tsx`). -/
inductive SendState where
  | idle
  | sending
  | sent
  | failed
deriving DecidableEq, Repr

/-- Model of the `RowSendState` record in the console component. -/
structure RowSendState where
  send_state : SendState
  send_error : Option Str
deriving DecidableEq, Repr

/-- The `rowSendStates` record: insertion-ordered map from row id to state. -/
abbrev SendStates := List (Str × RowSendState)

/-- Model of `getRowId` in the console component. -/
def getRowId (row : BillRow) : Str :=
  row.account_key ++ lit "::" ++ row.zip_entry_path ++ lit "::" ++ row.pdf_filename

/-- Model of `getDefaultSendState` in the console component. -/
def getDefaultSendState : RowSendState := ⟨.idle, none⟩

/-- Reading `rowSendStates[rowId] ?? getDefaultSendState()`. -/
def lookupSendState (states : SendStates) (rowId : Str) : RowSendState :=
  (states.lookup rowId).getD getDefaultSendState

/-- The state update performed by `setRowSendState`: the object-spread
`{...current, [rowId]: next}`, which overwrites an existing key in place
and otherwise appends. -/
def setSendStateEntry : SendStates → Str → RowSendState → SendStates
  | [], rowId, v => [(rowId, v)]
  | (k, w) :: rest, rowId, v =>
    if k = rowId then (rowId, v) :: rest
    else (k, w) :: setSendStateEntry rest rowId v

/-- Model of `zip.file(path)`: look an entry up by exact path. -/
def zipFileLookup (files : List ZipEntry) (path : Str) : Option ZipEntry :=
  files.find? (fun f => f.name = path)

/-- Model of `findPdfEntry` in the console component: exact entry-path
match, then exact filename match, then a scan for an equal base name. -/
def findPdfEntry (files : List ZipEntry) (row : BillRow) : Option ZipEntry :=
  match Option.filter (fun f => !f.dir) (zipFileLookup files row.zip_entry_path) with
  | some f => some f
  | none =>
    match Option.filter (fun f => !f.dir) (zipFileLookup files row.pdf_filename) with
    | some f => some f
    | none =>
      files.find? (fun f => !f.dir && getBaseName f.name = getBaseName row.pdf_filename)

/-- The row-level error messages of `sendEmailForRow`. -/
def noContactEmailMsg : Str := lit "No contact email available."

/-- Error message when the archive filename has been lost. -/
def zipFilenameUnavailableMsg : Str := lit "ZIP filename is unavailable. Re-upload the file."

/-- Error message when the decoded archive handle has been lost. -/
def zipDataUnavailableMsg : Str := lit "ZIP data is not available. Re-upload the file."

/-- Error message when the row's PDF cannot be located in the archive. -/
def pdfNotFoundMsg (row : BillRow) : Str :=
  lit "Could not find PDF in ZIP: " ++ row.pdf_filename

/-- Client-side view of one /api/send-email response: `ok` when
`response.ok && payload?.ok`, otherwise the final error message
(`payload?.error ?? "Failed to send email."`, or the thrown fetch error's
message). -/
inductive RowSendOutcome where
  | ok
  | err (message : Str)
deriving DecidableEq, Repr

/-- Session-level inputs of a send: the trimmed archive filename
(`summary?.zipFilename.trim() ?? ""`, empty when unavailable) and the
in-memory archive handle (`zipRef.current`). -/
structure SendCtx where
  zipFilename : Str
  zip : Option (List ZipEntry)
deriving Repr

/-- Observable events of a send run: each `rowSendStates` snapshot after a
`setRowSendState` call, and each audit-log re-query
(`refreshLastLogStatusForKeys`, the `finally` of `sendEmailForRow`). -/
inductive SendEv where
  | snap (states : SendStates)
  | auditRefresh (key : Str)
deriving DecidableEq, Repr

/-- Model of `sendEmailForRow` in the console component, for one row:
returns the final `rowSendStates`, the event trace, whether the transport
(`fetch("/api/send-email")`) was invoked, and the returned boolean. -/
def sendEmailForRowRun (ctx : SendCtx) (states : SendStates) (row : BillRow)
    (outcome : RowSendOutcome) : SendStates × List SendEv × Bool × Bool :=
  let rowId := getRowId row
  let currentState := (lookupSendState states rowId).send_state
  if currentState = .sending then (states, [], false, false)
  else if ¬ strTruthy row.contact_email then
    let s1 := setSendStateEntry states rowId ⟨.failed, some noContactEmailMsg⟩
    (s1, [.snap s1], false, false)
  else if ctx.zipFilename = [] then
    let s1 := setSendStateEntry states rowId ⟨.failed, some zipFilenameUnavailableMsg⟩
    (s1, [.snap s1], false, false)
  else
    let s1 := setSendStateEntry states rowId ⟨.sending, none⟩
    match ctx.zip with
    | none =>
      let s2 := setSendStateEntry s1 rowId ⟨.failed, some zipDataUnavailableMsg⟩
      (s2, [.snap s1, .snap s2, .auditRefresh row.account_key], false, false)
    | some files =>
      match findPdfEntry files row with
      | none =>
        let s2 := setSendStateEntry s1 rowId ⟨.failed, some (pdfNotFoundMsg row)⟩
        (s2, [.snap s1, .snap s2, .auditRefresh row.account_key], false, false)
      | some _ =>
        match outcome with
        | .ok =>
          let s2 := setSendStateEntry s1 rowId ⟨.sent, none⟩
          (s2, [.snap s1, .snap s2, .auditRefresh row.account_key], true, true)
        | .err message =>
          let s2 := setSendStateEntry s1 rowId ⟨.failed, some message⟩
          (s2, [.snap s1, .snap s2, .auditRefresh row.account_key], true, false)

/-- The sequential `for (const row of rowsToSend) await sendEmailForRow(row)`
loop shared by the three bulk modes: fold the rows in order, concatenating
event traces and collecting the rows for which the transport was invoked. -/
def runBulkRows (ctx : SendCtx) (states : SendStates) :
    List BillRow → (BillRow → RowSendOutcome) →
    SendStates × List SendEv × List BillRow
  | [], _ => (states, [], [])
  | row :: rest, outcome =>
    let step := sendEmailForRowRun ctx states row (outcome row)
    let tail := runBulkRows ctx step.1 rest outcome
    (tail.1, step.2.1 ++ tail.2.1,
      (if step.2.2.1 then [row] else []) ++ tail.2.2)

/-- Model of `shouldSkipRowBecauseSentEarlier` in the console component. -/
def shouldSkipRowBecauseSentEarlier (skipAlreadySent : Bool)
    (lastLogStatusByKey : List (Str × LastSendStatus)) (row : BillRow) : Bool :=
  if !skipAlreadySent then false
  else
    ((lastLogStatusByKey.lookup row.account_key).bind (·.status)) = some (lit "sent")

/-- The eligibility filter of `sendPending` in the console component. -/
def sendPendingFilter (rows : List BillRow) (states : SendStates)
    (skipAlreadySent : Bool)
    (lastLogStatusByKey : List (Str × LastSendStatus)) : List BillRow :=
  rows.filter fun row =>
    row.status = RowStatus.Pending &&
      !shouldSkipRowBecauseSentEarlier skipAlreadySent lastLogStatusByKey row &&
      ((states.lookup (getRowId row)).map (·.send_state)) ≠ some SendState.sent

/-- The eligibility filter of `sendSelectedPendingRows` in the console
component (`selectedRowIds` modelled as the list of selected row ids). -/
def sendSelectedFilter (rows : List BillRow) (states : SendStates)
    (selectedRowIds : List Str) (skipAlreadySent : Bool)
    (lastLogStatusByKey : List (Str × LastSendStatus)) : List BillRow :=
  rows.filter fun row =>
    let rowId := getRowId row
    (selectedRowIds.contains rowId && row.status = RowStatus.Pending) &&
      !shouldSkipRowBecauseSentEarlier skipAlreadySent lastLogStatusByKey row &&
      ((states.lookup rowId).map (·.send_state)) ≠ some SendState.sent

/-- The eligibility filter of `retryAllFailed` in the console component. -/
def retryFailedFilter (rows : List BillRow) (states : SendStates)
    (lastLogStatusByKey : List (Str × LastSendStatus)) : List BillRow :=
  rows.filter fun row =>
    (row.status = RowStatus.Pending &&
        ((lastLogStatusByKey.lookup row.account_key).bind (·.status)) =
          some (lit "failed")) &&
      ((states.lookup (getRowId row)).map (·.send_state)) ≠ some SendState.sent

/-- Model of `sendPending` in the console component: the re-entrancy and
archive-filename guards, then the sequential loop over the filtered rows.
Returns `none` when the run aborts before sending anything. -/
def sendPendingRun (isSendingAll : Bool) (ctx : SendCtx) (rows : List BillRow)
    (states : SendStates) (skipAlreadySent : Bool)
    (lastLogStatusByKey : List (Str × LastSendStatus))
    (outcome : BillRow → RowSendOutcome) :
    Option (SendStates × List SendEv × List BillRow) :=
  if isSendingAll then none
  else if ctx.zipFilename = [] then none
  else
    some (runBulkRows ctx states
      (sendPendingFilter rows states skipAlreadySent lastLogStatusByKey) outcome)

/-- Number of rows currently in the `sending` state. -/
def sendingCount (states : SendStates) : Nat :=
  states.countP (fun e => e.2.send_state = SendState.sending)

/-- Conjunction of the six input-validation checks of the send-email
route, in source order; `false` exactly when the route answers with one of
the `badRequest` validation responses. -/
def validSendInputs (body : SendEmailBody) : Bool :=
  let toEmail := strToLower (toStringOrEmpty body.to_email)
  toStringOrEmpty body.zip_filename ≠ [] &&
    toStringOrEmpty body.account_key ≠ [] &&
    (validEmailB toEmail && toEmail.contains '@') &&
    isPdf (toStringOrEmpty body.filename) &&
    toStringOrEmpty body.pdf_base64 ≠ [] &&
    base64DecodedLength (toStringOrEmpty body.pdf_base64) ≠ 0

/-- Claim C10: if the uploaded archive's manifest.json parses as JSON but its success field is missing or not an array, parsing yields zero manifest-sourced records and the filename-convention fallback is not applied, even when entries matching the fallback naming convention exist. -/
theorem manifest_nonarray_success_yields_no_rows
    (zip : ZipModel) (j : Json)
    (hman : zip.manifest = some (some j))
    (hsucc : j.fieldIsArr (lit "success") = false) :
    (parseZipRows zip).1 = [] ∧ (parseZipRows zip).2.1 = ParseSource.manifest := by
  rcases h : j.field (lit "success") with - | jv
  · simp [parseZipRows, hman, h]
  · cases jv <;>
      first
        | (exfalso; simp [Json.fieldIsArr, h] at hsucc; done)
        | simp [parseZipRows, hman, h]

theorem manifest_nonarray_witness :
    (parseZipRows
        { files := [⟨lit "Bill_PR20_2024-01-05.pdf", false⟩]
          manifest := some (some (.obj [(lit "trade_date", .str (lit "2024-01-05"))])) }).1 = []
    ∧ (parseZipRows
        { files := [⟨lit "Bill_PR20_2024-01-05.pdf", false⟩]
          manifest := some (some (.obj [(lit "trade_date", .str (lit "2024-01-05"))])) }).2.1 =
        ParseSource.manifest :=
  manifest_nonarray_success_yields_no_rows _ _ rfl rfl

/-- Claim C7: after the initial merge of parsed records with contacts, and after every contact refresh for a subset of keys, a row's status is Pending iff a contact with a non-empty email was resolved for its account key, and Blocked otherwise. -/
theorem row_status_pending_iff_contact_email
    (rows : List ParsedBillRow) (cbk : Str → Option Contact)
    (rows2 : List BillRow) (keys : List Str) (cbk2 : Str → Option Contact) :
    (∀ row ∈ mergeRowsWithContacts rows cbk,
        (row.status = RowStatus.Pending ↔ ∃ c, cbk row.account_key = some c ∧ c.email ≠ []))
    ∧ ((∀ row ∈ rows2, (row.status = RowStatus.Pending ↔ strTruthy row.contact_email = true)) →
        ∀ row ∈ syncRowsWithContacts rows2 keys cbk2,
          (row.status = RowStatus.Pending ↔ strTruthy row.contact_email = true))
    ∧ (∀ row ∈ syncRowsWithContacts rows2 keys cbk2,
        row.account_key ∈ uniqueAccountKeys keys →
          (row.status = RowStatus.Pending ↔ ∃ c, cbk2 row.account_key = some c ∧ c.email ≠ [])) := by
  refine ⟨?_, ?_, ?_⟩
  · intro row hrow
    simp only [mergeRowsWithContacts, List.mem_map] at hrow
    obtain ⟨src, -, rfl⟩ := hrow
    rcases h : cbk src.account_key with - | c
    · simp [getStatusFromEmail, strTruthy, h]
    · by_cases he : c.email = [] <;>
        simp [getStatusFromEmail, strTruthy, h, he]
  · intro hinv row hrow
    simp only [syncRowsWithContacts, List.mem_map] at hrow
    obtain ⟨src, hsrc, rfl⟩ := hrow
    by_cases hk : src.account_key ∈ uniqueAccountKeys keys
    · rcases h : cbk2 src.account_key with - | c
      · simp [getStatusFromEmail, strTruthy, hk, h]
      · by_cases he : c.email = [] <;>
          simp [getStatusFromEmail, strTruthy, hk, h, he]
    · simpa [hk] using hinv src hsrc
  · intro row hrow hk
    simp only [syncRowsWithContacts, List.mem_map] at hrow
    obtain ⟨src, hsrc, rfl⟩ := hrow
    by_cases hk2 : src.account_key ∈ uniqueAccountKeys keys
    · rcases h : cbk2 src.account_key with - | c
      · simp [getStatusFromEmail, strTruthy, hk2, h]
      · by_cases he : c.email = [] <;>
          simp [getStatusFromEmail, strTruthy, hk2, h, he]
    · rw [if_neg hk2] at hk
      exact absurd hk hk2

/-- Claim C9: an authorized request to POST /api/send-email that passes all input validation and has a valid configured sender, carrying the query parameter dryRun=1, responds with success (ok true, dryRun true) without invoking the mail provider and without writing any send-log entry. -/
theorem dry_run_no_transport_no_log (env : RouteEnv) (body : SendEmailBody) (uid : Str)
    (hauth : env.authenticated = true) (huser : env.userId = some uid)
    (hadmin : env.userEmailAdmin = true)
    (hvalid : validSendInputs body = true)
    (hs1 : strTrim (env.gmailSenderEmail.getD []) ≠ [])
    (hs2 : validEmailB (strTrim (env.gmailSenderEmail.getD [])) = true)
    (hdry : env.dryRun = true) :
    sendEmailPOST env (some body) =
      ⟨{ ok := true, status := 200, error := none, dryRun := true, messageId := none },
        [], false⟩ := by
  rw [validSendInputs] at hvalid
  simp only [Bool.and_eq_true, ne_eq, decide_eq_true_eq] at hvalid
  obtain ⟨⟨⟨⟨⟨h1, h2⟩, h3⟩, h4⟩, h5⟩, h6⟩ := hvalid
  have h3m : '@' ∈ strToLower (toStringOrEmpty body.to_email) := by
    simpa using h3.2
  simp only [sendEmailPOST, hauth, huser, hadmin, hdry]
  simp [h1, h2, h3.1, h3m, h4, h5, h6, hs1, hs2]

theorem dry_run_witness :
    sendEmailPOST
        { authenticated := true, userId := some (lit "op-1"), userEmailAdmin := true
          gmailSenderEmail := some (lit "sender@alphatech.example"), dryRun := true
          transport := .replied (some (lit "m1")) none }
        (some
          { zip_filename := some (lit "batch.zip"), account_key := some (lit "PR20")
            trade_date := none, to_email := some (lit "alice@example.com")
            to_name := none, filename := some (lit "Bill_PR20.pdf")
            pdf_base64 := some (lit "QUJD") }) =
      ⟨{ ok := true, status := 200, error := none, dryRun := true, messageId := none },
        [], false⟩ :=
  dry_run_no_transport_no_log _ _ (lit "op-1") rfl rfl rfl (by decide) (by decide)
    (by decide) rfl

set_option maxHeartbeats 2000000 in
/-- Claim C3 counterexample: a request with an empty to_email is rejected with a 400 response before any transport call, but NO send-log entry is written, contradicting the claim that validation errors are logged to the audit trail. -/
theorem validation_error_not_logged_counterexample :
    (sendEmailPOST
        { authenticated := true, userId := some (lit "op-1"), userEmailAdmin := true
          gmailSenderEmail := some (lit "sender@alphatech.example"), dryRun := false
          transport := .replied (some (lit "m1")) none }
        (some
          { zip_filename := some (lit "batch.zip"), account_key := some (lit "PR20")
            trade_date := none, to_email := some []
            to_name := none, filename := some (lit "Bill_PR20.pdf")
            pdf_base64 := some (lit "QUJD") })) =
      ⟨badRequestResponse (lit "to_email must be a valid email address."), [], false⟩ := by
  decide

/-- Claim C3 (amended): every validation error at the send boundary (missing archive filename, missing account key, malformed or missing recipient address, non-pdf filename, missing or empty attachment) is rejected with a specific message before any transport call, but no audit-trail send-log entry is written for it: the route returns a 400 bad request with empty logs and the transport not called. -/
theorem validation_errors_rejected_before_transport
    (env : RouteEnv) (body : SendEmailBody) (uid : Str)
    (hauth : env.authenticated = true) (huser : env.userId = some uid)
    (hadmin : env.userEmailAdmin = true) :
    (toStringOrEmpty body.zip_filename = [] →
      sendEmailPOST env (some body) =
        ⟨badRequestResponse (lit "zip_filename is required."), [], false⟩)
    ∧ (toStringOrEmpty body.zip_filename ≠ [] →
        toStringOrEmpty body.account_key = [] →
        sendEmailPOST env (some body) =
          ⟨badRequestResponse (lit "account_key is required."), [], false⟩)
    ∧ (toStringOrEmpty body.zip_filename ≠ [] →
        toStringOrEmpty body.account_key ≠ [] →
        (validEmailB (strToLower (toStringOrEmpty body.to_email)) &&
            (strToLower (toStringOrEmpty body.to_email)).contains '@') = false →
        sendEmailPOST env (some body) =
          ⟨badRequestResponse (lit "to_email must be a valid email address."), [], false⟩)
    ∧ (toStringOrEmpty body.zip_filename ≠ [] →
        toStringOrEmpty body.account_key ≠ [] →
        (validEmailB (strToLower (toStringOrEmpty body.to_email)) &&
            (strToLower (toStringOrEmpty body.to_email)).contains '@') = true →
        isPdf (toStringOrEmpty body.filename) = false →
        sendEmailPOST env (some body) =
          ⟨badRequestResponse (lit "filename must end with .pdf."), [], false⟩)
    ∧ (toStringOrEmpty body.zip_filename ≠ [] →
        toStringOrEmpty body.account_key ≠ [] →
        (validEmailB (strToLower (toStringOrEmpty body.to_email)) &&
            (strToLower (toStringOrEmpty body.to_email)).contains '@') = true →
        isPdf (toStringOrEmpty body.filename) = true →
        toStringOrEmpty body.pdf_base64 = [] →
        sendEmailPOST env (some body) =
          ⟨badRequestResponse (lit "pdf_base64 is required."), [], false⟩)
    ∧ (toStringOrEmpty body.zip_filename ≠ [] →
        toStringOrEmpty body.account_key ≠ [] →
        (validEmailB (strToLower (toStringOrEmpty body.to_email)) &&
            (strToLower (toStringOrEmpty body.to_email)).contains '@') = true →
        isPdf (toStringOrEmpty body.filename) = true →
        toStringOrEmpty body.pdf_base64 ≠ [] →
        base64DecodedLength (toStringOrEmpty body.pdf_base64) = 0 →
        sendEmailPOST env (some body) =
          ⟨badRequestResponse (lit "pdf attachment must be non-empty."), [], false⟩) := by
  refine ⟨?_, ?_, ?_, ?_, ?_, ?_⟩
  · intro h1
    simp [sendEmailPOST, hauth, huser, hadmin, h1]
  · intro h1 h2
    simp [sendEmailPOST, hauth, huser, hadmin, h1, h2]
  · intro h1 h2 hv
    have hC : ¬ ((validEmailB (strToLower (toStringOrEmpty body.to_email)) &&
        (strToLower (toStringOrEmpty body.to_email)).contains '@') = true) := by
      rw [hv]; simp
    simp [sendEmailPOST, hauth, huser, hadmin, h1, h2, hC]
    intro ha hm
    exact absurd ((Bool.and_eq_true _ _).mpr ⟨ha, by simpa using hm⟩) hC
  · intro h1 h2 hv h4
    rw [Bool.and_eq_true] at hv
    have h3m : '@' ∈ strToLower (toStringOrEmpty body.to_email) := by
      simpa using hv.2
    simp [sendEmailPOST, hauth, huser, hadmin, h1, h2, hv.1, h3m, h4]
  · intro h1 h2 hv h4 h5
    rw [Bool.and_eq_true] at hv
    have h3m : '@' ∈ strToLower (toStringOrEmpty body.to_email) := by
      simpa using hv.2
    simp [sendEmailPOST, hauth, huser, hadmin, h1, h2, hv.1, h3m, h4, h5]
  · intro h1 h2 hv h4 h5 h6
    rw [Bool.and_eq_true] at hv
    have h3m : '@' ∈ strToLower (toStringOrEmpty body.to_email) := by
      simpa using hv.2
    simp [sendEmailPOST, hauth, huser, hadmin, h1, h2, hv.1, h3m, h4, h5, h6]

theorem sendingCount_nil : sendingCount [] = 0 := by
  simp [sendingCount]

theorem sendingCount_cons (e : Str × RowSendState) (rest : SendStates) :
    sendingCount (e :: rest) =
      sendingCount rest + if e.2.send_state = SendState.sending then 1 else 0 := by
  simp [sendingCount, List.countP_cons]

theorem sendingCount_set_of_zero (states : SendStates) (k : Str)
    (h : sendingCount states = 0) (v : RowSendState) :
    sendingCount (setSendStateEntry states k v) =
      if v.send_state = SendState.sending then 1 else 0 := by
  induction states with
  | nil =>
    rw [show setSendStateEntry [] k v = [(k, v)] from rfl, sendingCount_cons,
      sendingCount_nil]
    simp
  | cons e rest ih =>
    rw [sendingCount_cons] at h
    by_cases hb : e.2.send_state = SendState.sending
    · rw [if_pos hb] at h; omega
    · rw [if_neg hb] at h
      have hrest : sendingCount rest = 0 := by omega
      simp only [setSendStateEntry]
      by_cases hk : e.1 = k
      · rw [if_pos hk, sendingCount_cons, hrest]
        simp
      · rw [if_neg hk, sendingCount_cons, ih hrest, if_neg hb]
        simp

theorem setSendStateEntry_collapse (states : SendStates) (k : Str)
    (a b : RowSendState) :
    setSendStateEntry (setSendStateEntry states k a) k b =
      setSendStateEntry states k b := by
  induction states with
  | nil => simp [setSendStateEntry]
  | cons e rest ih =>
    by_cases hk : e.1 = k
    · simp [setSendStateEntry, hk]
    · simp [setSendStateEntry, hk, ih]

theorem sendRow_sendingCount (ctx : SendCtx) (states : SendStates) (row : BillRow)
    (outcome : RowSendOutcome) (h0 : sendingCount states = 0) :
    sendingCount (sendEmailForRowRun ctx states row outcome).1 = 0 ∧
      ∀ s, SendEv.snap s ∈ (sendEmailForRowRun ctx states row outcome).2.1 →
        sendingCount s ≤ 1 := by
  by_cases h1 : (lookupSendState states (getRowId row)).send_state = SendState.sending
  · simp [sendEmailForRowRun, h1, h0]
  by_cases h2 : strTruthy row.contact_email
  case neg =>
    simp [sendEmailForRowRun, h1, h2]
    constructor
    · rw [sendingCount_set_of_zero states _ h0]; simp
    · rw [sendingCount_set_of_zero states _ h0]; simp
  by_cases h3 : ctx.zipFilename = []
  · simp [sendEmailForRowRun, h1, h2, h3]
    constructor
    · rw [sendingCount_set_of_zero states _ h0]; simp
    · rw [sendingCount_set_of_zero states _ h0]; simp
  rcases hz : ctx.zip with - | files
  · simp [sendEmailForRowRun, h1, h2, h3, hz, setSendStateEntry_collapse]
    refine ⟨by rw [sendingCount_set_of_zero states _ h0]; simp, ?_, ?_⟩
    · rw [sendingCount_set_of_zero states _ h0]; simp
    · rw [sendingCount_set_of_zero states _ h0]; simp
  rcases hf : findPdfEntry files row with - | entry
  · simp [sendEmailForRowRun, h1, h2, h3, hz, hf, setSendStateEntry_collapse]
    refine ⟨by rw [sendingCount_set_of_zero states _ h0]; simp, ?_, ?_⟩
    · rw [sendingCount_set_of_zero states _ h0]; simp
    · rw [sendingCount_set_of_zero states _ h0]; simp
  rcases outcome with - | msg
  · simp [sendEmailForRowRun, h1, h2, h3, hz, hf, setSendStateEntry_collapse]
    refine ⟨by rw [sendingCount_set_of_zero states _ h0]; simp, ?_, ?_⟩
    · rw [sendingCount_set_of_zero states _ h0]; simp
    · rw [sendingCount_set_of_zero states _ h0]; simp
  · simp [sendEmailForRowRun, h1, h2, h3, hz, hf, setSendStateEntry_collapse]
    refine ⟨by rw [sendingCount_set_of_zero states _ h0]; simp, ?_, ?_⟩
    · rw [sendingCount_set_of_zero states _ h0]; simp
    · rw [sendingCount_set_of_zero states _ h0]; simp

/-- Claim C8: a bulk run over eligible rows processes them strictly sequentially: starting from a state with no row sending, every intermediate snapshot of the run has at most one row in the sending state, and the final state has none. -/
theorem bulk_run_sequential_single_sending (ctx : SendCtx) (rows : List BillRow)
    (outcome : BillRow → RowSendOutcome) (states : SendStates)
    (h0 : sendingCount states = 0) :
    sendingCount (runBulkRows ctx states rows outcome).1 = 0 ∧
      ∀ s, SendEv.snap s ∈ (runBulkRows ctx states rows outcome).2.1 →
        sendingCount s ≤ 1 := by
  induction rows generalizing states with
  | nil => simpa [runBulkRows] using h0
  | cons row rest ih =>
    obtain ⟨hfin, hsnap⟩ := sendRow_sendingCount ctx states row (outcome row) h0
    obtain ⟨hfin2, hsnap2⟩ := ih _ hfin
    refine ⟨by simpa [runBulkRows] using hfin2, ?_⟩
    intro s hs
    simp only [runBulkRows, List.mem_append] at hs
    rcases hs with hs | hs
    · exact hsnap s hs
    · exact hsnap2 s hs

/-- Claim C4 counterexample: for a row with no resolved contact email, the refused transition into sending is not a no-op: the row's send state is set to failed with a specific error message. -/
theorem sending_refusal_not_noop_counterexample :
    (sendEmailForRowRun ⟨lit "batch.zip", some []⟩ []
        ⟨lit "PR20", lit "Bill_PR20_1.pdf", lit "Bill_PR20_1.pdf", none, none, none,
          RowStatus.Blocked⟩ RowSendOutcome.ok).1 =
      [(getRowId ⟨lit "PR20", lit "Bill_PR20_1.pdf", lit "Bill_PR20_1.pdf", none, none,
          none, RowStatus.Blocked⟩,
        ⟨SendState.failed, some noContactEmailMsg⟩)]
    ∧ (sendEmailForRowRun ⟨lit "batch.zip", some []⟩ []
        ⟨lit "PR20", lit "Bill_PR20_1.pdf", lit "Bill_PR20_1.pdf", none, none, none,
          RowStatus.Blocked⟩ RowSendOutcome.ok).1 ≠ ([] : SendStates) := by
  constructor
  · rfl
  · decide

/-- Claim C4 (amended): a transition into sending is refused as a strict no-op only when the row is already sending; when the row has no resolved contact email, or when the archive filename (or data) is unavailable, the transport is not called but the row is marked failed with the corresponding specific message rather than left unchanged. -/
theorem sending_refusal_cases (ctx : SendCtx) (states : SendStates) (row : BillRow)
    (outcome : RowSendOutcome) :
    ((lookupSendState states (getRowId row)).send_state = SendState.sending →
      sendEmailForRowRun ctx states row outcome = (states, [], false, false))
    ∧ ((lookupSendState states (getRowId row)).send_state ≠ SendState.sending →
        strTruthy row.contact_email = false →
        sendEmailForRowRun ctx states row outcome =
          (setSendStateEntry states (getRowId row)
              ⟨SendState.failed, some noContactEmailMsg⟩,
            [SendEv.snap (setSendStateEntry states (getRowId row)
              ⟨SendState.failed, some noContactEmailMsg⟩)], false, false))
    ∧ ((lookupSendState states (getRowId row)).send_state ≠ SendState.sending →
        strTruthy row.contact_email = true →
        ctx.zipFilename = [] →
        sendEmailForRowRun ctx states row outcome =
          (setSendStateEntry states (getRowId row)
              ⟨SendState.failed, some zipFilenameUnavailableMsg⟩,
            [SendEv.snap (setSendStateEntry states (getRowId row)
              ⟨SendState.failed, some zipFilenameUnavailableMsg⟩)], false, false)) := by
  refine ⟨fun h => ?_, fun h hne => ?_, fun h hte hz => ?_⟩
  · simp [sendEmailForRowRun, h]
  · simp [sendEmailForRowRun, h, hne]
  · simp [sendEmailForRowRun, h, hte, hz]

theorem sending_refusal_cases_witness :
    (lookupSendState [] (getRowId ⟨lit "PR20", lit "a.pdf", lit "a.pdf", none, none,
        some (lit "alice@example.com"), RowStatus.Pending⟩)).send_state ≠ SendState.sending
    ∧ sendEmailForRowRun ⟨[], some []⟩ []
        ⟨lit "PR20", lit "a.pdf", lit "a.pdf", none, none,
          some (lit "alice@example.com"), RowStatus.Pending⟩ RowSendOutcome.ok =
      (setSendStateEntry [] (getRowId ⟨lit "PR20", lit "a.pdf", lit "a.pdf", none, none,
          some (lit "alice@example.com"), RowStatus.Pending⟩)
          ⟨SendState.failed, some zipFilenameUnavailableMsg⟩,
        [SendEv.snap (setSendStateEntry [] (getRowId ⟨lit "PR20", lit "a.pdf", lit "a.pdf",
          none, none, some (lit "alice@example.com"), RowStatus.Pending⟩)
          ⟨SendState.failed, some zipFilenameUnavailableMsg⟩)], false, false) :=
  ⟨by decide,
    (sending_refusal_cases ⟨[], some []⟩ []
        ⟨lit "PR20", lit "a.pdf", lit "a.pdf", none, none,
          some (lit "alice@example.com"), RowStatus.Pending⟩ RowSendOutcome.ok).2.2
      (by decide) (by decide) rfl⟩

theorem runBulk_calls_subset (ctx : SendCtx) (rows : List BillRow)
    (outcome : BillRow → RowSendOutcome) (states : SendStates) :
    ∀ row ∈ (runBulkRows ctx states rows outcome).2.2, row ∈ rows := by
  induction rows generalizing states with
  | nil => simp [runBulkRows]
  | cons row rest ih =>
    intro r hr
    simp only [runBulkRows, List.mem_append] at hr
    rcases hr with hr | hr
    · by_cases hc : (sendEmailForRowRun ctx states row (outcome row)).2.2.1 = true
      · rw [if_pos hc] at hr
        simp at hr
        simp [hr]
      · rw [if_neg hc] at hr
        simp at hr
    · exact List.mem_cons_of_mem _ (ih _ _ hr)

/-- Claim C1: with the skip-already-sent toggle enabled, a bulk send-all-pending run excludes every pending row whose last known audit status for the current archive filename and account key is sent: the row is not among the iterated rows and no transport call is made for it, and the run iterates only pending rows not already sent in this session. -/
theorem sendPending_skips_rows_already_sent
    (ctx : SendCtx) (rows : List BillRow) (states : SendStates)
    (lastLog : List (Str × LastSendStatus)) (outcome : BillRow → RowSendOutcome)
    (row : BillRow)
    (hsent : ((lastLog.lookup row.account_key).bind (·.status)) = some (lit "sent")) :
    row ∉ sendPendingFilter rows states true lastLog
    ∧ (∀ result, sendPendingRun false ctx rows states true lastLog outcome = some result →
        row ∉ result.2.2)
    ∧ (∀ r ∈ sendPendingFilter rows states true lastLog,
        r.status = RowStatus.Pending ∧
          ((states.lookup (getRowId r)).map (·.send_state)) ≠ some SendState.sent) := by
  have hskip : shouldSkipRowBecauseSentEarlier true lastLog row = true := by
    simp [shouldSkipRowBecauseSentEarlier, hsent]
  refine ⟨?_, ?_, ?_⟩
  · intro hmem
    rw [sendPendingFilter, List.mem_filter] at hmem
    rw [hskip] at hmem
    simp at hmem
  · intro result hres hmem
    rw [sendPendingRun] at hres
    by_cases hz : ctx.zipFilename = []
    · simp [hz] at hres
    · simp [hz] at hres
      subst hres
      have := runBulk_calls_subset ctx
        (sendPendingFilter rows states true lastLog) outcome states _ hmem
      rw [sendPendingFilter, List.mem_filter, hskip] at this
      simp at this
  · intro r hr
    rw [sendPendingFilter, List.mem_filter] at hr
    have hp := hr.2
    simp only [Bool.and_eq_true, decide_eq_true_eq] at hp
    exact ⟨hp.1.1, by simpa using hp.2⟩

theorem sendPending_skips_witness :
    ((([(lit "PR20", (⟨some (lit "sent"), some (lit "2024-01-05T10:00:00Z")⟩ : LastSendStatus))] :
        List (Str × LastSendStatus)).lookup (lit "PR20")).bind (fun s => s.status)) =
      some (lit "sent")
    ∧ (⟨lit "PR20", lit "a.pdf", lit "a.pdf", none, some (lit "Alice"),
        some (lit "alice@example.com"), RowStatus.Pending⟩ : BillRow) ∉
      sendPendingFilter
        [⟨lit "PR20", lit "a.pdf", lit "a.pdf", none, some (lit "Alice"),
          some (lit "alice@example.com"), RowStatus.Pending⟩]
        [] true
        [(lit "PR20", ⟨some (lit "sent"), some (lit "2024-01-05T10:00:00Z")⟩)] :=
  ⟨by decide,
    (sendPending_skips_rows_already_sent ⟨lit "batch.zip", some []⟩
        [⟨lit "PR20", lit "a.pdf", lit "a.pdf", none, some (lit "Alice"),
          some (lit "alice@example.com"), RowStatus.Pending⟩]
        [] [(lit "PR20", ⟨some (lit "sent"), some (lit "2024-01-05T10:00:00Z")⟩)]
        (fun _ => RowSendOutcome.ok)
        ⟨lit "PR20", lit "a.pdf", lit "a.pdf", none, some (lit "Alice"),
          some (lit "alice@example.com"), RowStatus.Pending⟩ (by decide)).1⟩

theorem bulk_sequential_witness :
    sendingCount ([] : SendStates) = 0
    ∧ sendingCount (runBulkRows ⟨lit "batch.zip", some []⟩ []
        [⟨lit "PR20", lit "a.pdf", lit "a.pdf", none, some (lit "Alice"),
          some (lit "alice@example.com"), RowStatus.Pending⟩]
        (fun _ => RowSendOutcome.ok)).1 = 0 :=
  ⟨by decide,
    (bulk_run_sequential_single_sending ⟨lit "batch.zip", some []⟩
        [⟨lit "PR20", lit "a.pdf", lit "a.pdf", none, some (lit "Alice"),
          some (lit "alice@example.com"), RowStatus.Pending⟩]
        (fun _ => RowSendOutcome.ok) [] (by decide)).1⟩

theorem validation_rejected_witness :
    toStringOrEmpty (some ([] : Str)) = []
    ∧ sendEmailPOST
        { authenticated := true, userId := some (lit "op-1"), userEmailAdmin := true
          gmailSenderEmail := some (lit "sender@alphatech.example"), dryRun := false
          transport := .replied (some (lit "m1")) none }
        (some
          { zip_filename := some ([] : Str), account_key := some (lit "PR20")
            trade_date := none, to_email := some (lit "alice@example.com")
            to_name := none, filename := some (lit "Bill_PR20.pdf")
            pdf_base64 := some (lit "QUJD") }) =
      ⟨badRequestResponse (lit "zip_filename is required."), [], false⟩ :=
  ⟨by decide,
    (validation_errors_rejected_before_transport
        { authenticated := true, userId := some (lit "op-1"), userEmailAdmin := true
          gmailSenderEmail := some (lit "sender@alphatech.example"), dryRun := false
          transport := .replied (some (lit "m1")) none }
        { zip_filename := some ([] : Str), account_key := some (lit "PR20")
          trade_date := none, to_email := some (lit "alice@example.com")
          to_name := none, filename := some (lit "Bill_PR20.pdf")
          pdf_base64 := some (lit "QUJD") }
        (lit "op-1") rfl rfl rfl).1 (by decide)⟩

theorem row_status_iff_email_witness :
    ((⟨lit "PR20", lit "b.pdf", lit "b.pdf", none, some (lit "Alice"),
        some (lit "alice@example.com"), RowStatus.Pending⟩ : BillRow) ∈
      mergeRowsWithContacts [⟨lit "PR20", lit "b.pdf", lit "b.pdf", none⟩]
        (fun k => if k = lit "PR20" then
          some ⟨lit "PR20", some (lit "Alice"), lit "alice@example.com"⟩ else none))
    ∧ (RowStatus.Pending = RowStatus.Pending ↔ ∃ c,
        (fun k => if k = lit "PR20" then
            some (⟨lit "PR20", some (lit "Alice"), lit "alice@example.com"⟩ : Contact)
          else none) (lit "PR20") = some c ∧ c.email ≠ []) :=
  ⟨by decide,
    (row_status_pending_iff_contact_email [⟨lit "PR20", lit "b.pdf", lit "b.pdf", none⟩]
        (fun k => if k = lit "PR20" then
          some ⟨lit "PR20", some (lit "Alice"), lit "alice@example.com"⟩ else none)
        [] [] (fun _ => none)).1
      ⟨lit "PR20", lit "b.pdf", lit "b.pdf", none, some (lit "Alice"),
        some (lit "alice@example.com"), RowStatus.Pending⟩
      (by decide)⟩

theorem strLe_refl (s : Str) : strLe s s = true := by
  induction s with
  | nil => rfl
  | cons c rest ih => simp [strLe, ih]

theorem sentAtLe_refl (o : Option Str) : sentAtLe o o = true := by
  cases o with
  | none => rfl
  | some s => simpa [sentAtLe] using strLe_refl s

theorem lookup_append_eq (l1 l2 : List (Str × LastSendStatus)) (key : Str) :
    (l1 ++ l2).lookup key =
      match l1.lookup key with
      | some v => some v
      | none => l2.lookup key := by
  induction l1 with
  | nil => simp
  | cons e rest ih =>
    obtain ⟨k, v⟩ := e
    by_cases hk : key = k
    · simp [List.lookup_cons, hk]
    · have hb : (key == k) = false := by simpa using hk
      simp only [List.cons_append, List.lookup_cons, hb, ih]

theorem lastStatus_fold_lookup (key : Str) (hkey : key ≠ []) (data : List SendLogQueryRow) :
    ∀ acc : List (Str × LastSendStatus),
    ((data.foldl lastStatusStep acc).lookup key) =
      match acc.lookup key with
      | some v => some v
      | none =>
        (data.find? (fun row => normalizeAccountKey row.account_key = key)).map
          lastStatusOfRow := by
  induction data with
  | nil =>
    intro acc
    cases h : acc.lookup key <;> simp [h]
  | cons row rest ih =>
    intro acc
    rw [List.foldl_cons, ih, List.find?_cons]
    by_cases h0 : normalizeAccountKey row.account_key = []
    · have hp : decide (normalizeAccountKey row.account_key = key) = false := by
        rw [h0]
        simpa using (Ne.symm hkey)
      have hstep : lastStatusStep acc row = acc := by
        simp [lastStatusStep, h0]
      rw [hstep, hp]
    · by_cases hk : normalizeAccountKey row.account_key = key
      · cases hlk : acc.lookup key with
        | some v =>
          have h1 : (acc.lookup (normalizeAccountKey row.account_key)).isSome := by
            rw [hk, hlk]; rfl
          have hstep : lastStatusStep acc row = acc := by
            simp [lastStatusStep, h1]
          rw [hstep, hlk]
        | none =>
          have h1 : (acc.lookup (normalizeAccountKey row.account_key)) = none := by
            rw [hk, hlk]
          have hstep : lastStatusStep acc row =
              acc ++ [(normalizeAccountKey row.account_key, lastStatusOfRow row)] := by
            simp [lastStatusStep, h0, h1]
          have hp : decide (normalizeAccountKey row.account_key = key) = true := by
            simpa using hk
          rw [hstep, lookup_append_eq, hlk, hp]
          have hb : (key == normalizeAccountKey row.account_key) = true := by
            simpa using (Eq.symm hk)
          simp [List.lookup_cons, hb]
      · have hp : decide (normalizeAccountKey row.account_key = key) = false := by
          simpa using hk
        rw [hp]
        by_cases h1 : (acc.lookup (normalizeAccountKey row.account_key)).isSome
        · have hstep : lastStatusStep acc row = acc := by
            simp [lastStatusStep, h1]
          rw [hstep]
        · have hd0 : decide (normalizeAccountKey row.account_key = []) = false :=
            decide_eq_false h0
          have hd1 : (acc.lookup (normalizeAccountKey row.account_key)).isSome = false :=
            Bool.eq_false_iff.mpr h1
          have hstep : lastStatusStep acc row =
              acc ++ [(normalizeAccountKey row.account_key, lastStatusOfRow row)] := by
            simp [lastStatusStep, hd0, hd1]
          rw [hstep, lookup_append_eq]
          have hb : (key == normalizeAccountKey row.account_key) = false := by
            simpa using fun h => hk (Eq.symm h)
          cases hlk : acc.lookup key <;> simp [List.lookup_cons, hb]

theorem find_first_is_max (data : List SendLogQueryRow) (key : Str)
    (hsort : data.Pairwise (fun r1 r2 => sentAtLe r2.sent_at r1.sent_at = true))
    (row : SendLogQueryRow)
    (hfind : data.find? (fun r => normalizeAccountKey r.account_key = key) = some row) :
    ∀ r2 ∈ data, normalizeAccountKey r2.account_key = key →
      sentAtLe r2.sent_at row.sent_at = true := by
  induction data with
  | nil => simp at hfind
  | cons a rest ih =>
    rw [List.pairwise_cons] at hsort
    rw [List.find?_cons] at hfind
    by_cases hp : normalizeAccountKey a.account_key = key
    · rw [show decide (normalizeAccountKey a.account_key = key) = true by simpa using hp]
        at hfind
      obtain rfl : a = row := by simpa using hfind
      intro r2 hr2 hk2
      rcases List.mem_cons.mp hr2 with rfl | hr2
      · exact sentAtLe_refl _
      · exact hsort.1 r2 hr2
    · rw [show decide (normalizeAccountKey a.account_key = key) = false by simpa using hp]
        at hfind
      intro r2 hr2 hk2
      rcases List.mem_cons.mp hr2 with rfl | hr2
      · exact absurd hk2 hp
      · exact ih hsort.2 hfind r2 hr2 hk2

/-- Claim C2 counterexample: when the store returns matching entries in ascending sent_at order, getLastSendStatusForZip keeps the first returned entry per key rather than computing a client-side maximum, so its answer differs from the most recent entry by sent_at. -/
theorem lastStatus_not_clientside_max_counterexample :
    (lastStatusFromRows
        [⟨lit "A", lit "failed", some (lit "2024-01-01T00:00:00Z")⟩,
         ⟨lit "A", lit "sent", some (lit "2024-01-02T00:00:00Z")⟩]).lookup (lit "A") =
      some ⟨some (lit "failed"), some (lit "2024-01-01T00:00:00Z")⟩
    ∧ specClientSideLastStatus
        [⟨lit "A", lit "failed", some (lit "2024-01-01T00:00:00Z")⟩,
         ⟨lit "A", lit "sent", some (lit "2024-01-02T00:00:00Z")⟩] (lit "A") =
      some ⟨some (lit "sent"), some (lit "2024-01-02T00:00:00Z")⟩
    ∧ (lastStatusFromRows
        [⟨lit "A", lit "failed", some (lit "2024-01-01T00:00:00Z")⟩,
         ⟨lit "A", lit "sent", some (lit "2024-01-02T00:00:00Z")⟩]).lookup (lit "A") ≠
      specClientSideLastStatus
        [⟨lit "A", lit "failed", some (lit "2024-01-01T00:00:00Z")⟩,
         ⟨lit "A", lit "sent", some (lit "2024-01-02T00:00:00Z")⟩] (lit "A") := by
  refine ⟨by rfl, by rfl, by decide⟩

/-- Claim C2 (amended): getLastSendStatusForZip returns, for each key with a matching entry, the first entry in the store-returned order (the query requests sent_at descending, so this is the most recent pair exactly when the store honors the requested ordering, as proved for descending-sorted data); keys with no matching entry are genuinely absent from the mapping. -/
theorem lastStatus_first_of_ordered_rows
    (zip_filename : Str) (accountKeys : List Str) (data : List SendLogQueryRow)
    (hzip : strTrim zip_filename ≠ []) (hkeys : uniqueAccountKeys accountKeys ≠ [])
    (key : Str) (hkey : key ≠ [])
    (hsort : data.Pairwise (fun r1 r2 => sentAtLe r2.sent_at r1.sent_at = true)) :
    getLastSendStatusForZip true zip_filename accountKeys data false =
      lastStatusFromRows data
    ∧ ((lastStatusFromRows data).lookup key = none ↔
        ∀ row ∈ data, normalizeAccountKey row.account_key ≠ key)
    ∧ (∀ st, (lastStatusFromRows data).lookup key = some st →
        ∃ row ∈ data, normalizeAccountKey row.account_key = key ∧
          st = lastStatusOfRow row ∧
          ∀ row2 ∈ data, normalizeAccountKey row2.account_key = key →
            sentAtLe row2.sent_at row.sent_at = true) := by
  have hl : (lastStatusFromRows data).lookup key =
      (data.find? (fun row => normalizeAccountKey row.account_key = key)).map
        lastStatusOfRow := by
    rw [lastStatusFromRows]
    simpa using lastStatus_fold_lookup key hkey data []
  refine ⟨?_, ?_, ?_⟩
  · simp [getLastSendStatusForZip, hzip, hkeys]
  · rw [hl]
    constructor
    · intro h row hrow hk
      have hfn : data.find? (fun row => normalizeAccountKey row.account_key = key) = none := by
        cases hf : data.find? (fun row => normalizeAccountKey row.account_key = key) with
        | none => rfl
        | some r => rw [hf] at h; simp at h
      have := List.find?_eq_none.mp hfn row hrow
      simp [hk] at this
    · intro h
      cases hf : data.find? (fun row => normalizeAccountKey row.account_key = key) with
      | none => simp [hf]
      | some r =>
        have hr := List.mem_of_find?_eq_some hf
        have hp := List.find?_some hf
        simp at hp
        exact absurd hp (h r hr)
  · intro st hst
    rw [hl] at hst
    cases hf : data.find? (fun row => normalizeAccountKey row.account_key = key) with
    | none => rw [hf] at hst; simp at hst
    | some r =>
      rw [hf] at hst
      simp at hst
      refine ⟨r, List.mem_of_find?_eq_some hf, ?_, hst.symm, ?_⟩
      · have := List.find?_some hf
        simpa using this
      · exact find_first_is_max data key hsort r hf

theorem lastStatus_ordered_witness :
    strTrim (lit "batch.zip") ≠ []
    ∧ getLastSendStatusForZip true (lit "batch.zip") [lit "A"]
        [⟨lit "A", lit "sent", some (lit "2024-01-02T00:00:00Z")⟩,
         ⟨lit "A", lit "failed", some (lit "2024-01-01T00:00:00Z")⟩] false =
      lastStatusFromRows
        [⟨lit "A", lit "sent", some (lit "2024-01-02T00:00:00Z")⟩,
         ⟨lit "A", lit "failed", some (lit "2024-01-01T00:00:00Z")⟩] :=
  ⟨by decide,
    (lastStatus_first_of_ordered_rows (lit "batch.zip") [lit "A"]
        [⟨lit "A", lit "sent", some (lit "2024-01-02T00:00:00Z")⟩,
         ⟨lit "A", lit "failed", some (lit "2024-01-01T00:00:00Z")⟩]
        (by decide) (by decide) (lit "A") (by decide) (by decide)).1⟩

theorem isPrefixOf_append_cancel (a x y : Str) :
    (a ++ x).isPrefixOf (a ++ y) = x.isPrefixOf y := by
  induction a with
  | nil => rfl
  | cons c rest ih => simp [List.isPrefixOf, ih]

theorem isPrefixOf_append_self (a b : Str) : a.isPrefixOf (a ++ b) = true :=
  List.isPrefixOf_iff_prefix.mpr (List.prefix_append a b)

theorem isSuffixOf_append_self (a b : Str) : b.isSuffixOf (a ++ b) = true :=
  List.isSuffixOf_iff_suffix.mpr (List.suffix_append a b)

theorem strToLower_append (a b : Str) :
    strToLower (a ++ b) = strToLower a ++ strToLower b :=
  List.map_append _ a b

theorem splitOnChar_ne_nil (sep : Char) (s : Str) : splitOnChar sep s ≠ [] := by
  cases s with
  | nil => simp [splitOnChar]
  | cons c rest =>
    simp only [splitOnChar]
    cases splitOnChar sep rest with
    | nil => by_cases hc : c = sep <;> simp [hc]
    | cons h t => by_cases hc : c = sep <;> simp [hc]

theorem splitOnChar_parts (sep : Char) (s : Str) :
    ∀ part ∈ splitOnChar sep s, sep ∉ part := by
  induction s with
  | nil =>
    intro part hp
    simp [splitOnChar] at hp
    simp [hp]
  | cons c rest ih =>
    intro part hp
    cases hs : splitOnChar sep rest with
    | nil => exact absurd hs (splitOnChar_ne_nil sep rest)
    | cons h t =>
      have heq : splitOnChar sep (c :: rest) =
          if c = sep then [] :: h :: t else (c :: h) :: t := by
        simp only [splitOnChar, hs]
      rw [heq] at hp
      by_cases hc : c = sep
      · rw [if_pos hc] at hp
        rcases List.mem_cons.mp hp with rfl | hp
        · simp
        · exact ih part (hs ▸ hp)
      · rw [if_neg hc] at hp
        rcases List.mem_cons.mp hp with rfl | hp
        · have hh := ih h (hs ▸ List.mem_cons_self h t)
          intro hmem
          rcases List.mem_cons.mp hmem with heq | hmem
          · exact hc heq.symm
          · exact hh hmem
        · exact ih part (hs ▸ List.mem_cons_of_mem h hp)

theorem getLastD_mem_of_ne_nil (l : List Str) (d : Str) (h : l ≠ []) :
    l.getLastD d ∈ l := by
  induction l generalizing d with
  | nil => exact absurd rfl h
  | cons a t ih =>
    rw [List.getLastD_cons]
    cases t with
    | nil => simp [List.getLastD]
    | cons b t2 => exact List.mem_cons_of_mem a (ih a (by simp))

theorem getBaseName_no_sep (s : Str) : '/' ∉ getBaseName s := by
  rw [getBaseName]
  exact splitOnChar_parts '/' s _
    (getLastD_mem_of_ne_nil _ s (splitOnChar_ne_nil '/' s))

theorem splitOnChar_of_no_sep (sep : Char) (s : Str) (h : sep ∉ s) :
    splitOnChar sep s = [s] := by
  induction s with
  | nil => rfl
  | cons c rest ih =>
    have hc : ¬ c = sep := fun hc => h (hc ▸ List.mem_cons_self c rest)
    have hrest : sep ∉ rest := fun hm => h (List.mem_cons_of_mem c hm)
    simp only [splitOnChar, ih hrest, if_neg hc]

theorem getBaseName_of_no_sep (s : Str) (h : '/' ∉ s) : getBaseName s = s := by
  rw [getBaseName, splitOnChar_of_no_sep '/' s h]
  rfl

theorem findIdx?_token (key tail : Str) (h : '_' ∉ key) :
    ∀ i, List.findIdx? (fun c => c = '_') (key ++ '_' :: tail) i =
      some (i + key.length) := by
  induction key with
  | nil => intro i; simp [List.findIdx?_cons]
  | cons c ks ih =>
    intro i
    have hc : ¬ c = '_' := fun hc => h (hc ▸ List.mem_cons_self c ks)
    have hks : '_' ∉ ks := fun hm => h (List.mem_cons_of_mem c hm)
    rw [List.cons_append, List.findIdx?_cons]
    rw [if_neg (by simpa using hc)]
    rw [ih hks (i + 1)]
    simp
    omega

theorem firstUnderscoreIdx_token (key tail : Str) (h : '_' ∉ key) :
    firstUnderscoreIdx (key ++ '_' :: tail) = some key.length := by
  rw [firstUnderscoreIdx, findIdx?_token key tail h 0]
  simp

theorem admin_token_of_isPrefixOf (key tail : Str) (h : '_' ∉ key)
    (hp : (lit "Admin_").isPrefixOf (key ++ '_' :: tail) = true) :
    key = lit "Admin" := by
  obtain ⟨t, ht⟩ := List.isPrefixOf_iff_prefix.mp hp
  have ht2 : lit "Admin" ++ '_' :: t = key ++ '_' :: tail := by
    rw [← ht]
    rfl
  have hidx1 : firstUnderscoreIdx (lit "Admin" ++ '_' :: t) = some (lit "Admin").length :=
    firstUnderscoreIdx_token _ t (by decide)
  have hidx2 : firstUnderscoreIdx (key ++ '_' :: tail) = some key.length :=
    firstUnderscoreIdx_token _ tail h
  rw [ht2] at hidx1
  rw [hidx2] at hidx1
  have hlen : key.length = (lit "Admin").length := by
    simpa using hidx1
  exact ((List.append_inj ht2 hlen.symm).1).symm

/-- Claim C6 counterexample: the fallback filename with key segment " A" parses to a record whose account_key is the trimmed key "A", not the raw segment. -/
theorem fallback_untrimmed_key_counterexample :
    parseFallbackRows [⟨lit "Bill_ A_2024-01-05.pdf", false⟩] =
      [{ account_key := lit "A", pdf_filename := lit "Bill_ A_2024-01-05.pdf"
         zip_entry_path := lit "Bill_ A_2024-01-05.pdf"
         trade_date := some (lit "2024-01-05") }]
    ∧ lit "A" ≠ lit " A" := by
  refine ⟨by rfl, by decide⟩

/-- Claim C6 (amended): a non-directory fallback entry whose base name matches the Bill_{key}_{date}.pdf shape with an underscore-free key yields exactly one record with account_key equal to the TRIMMED key segment and trade_date the trimmed date segment (null if empty), unless the trimmed key is empty or the key is the excluded administrative one, in which case the entry is dropped. -/
theorem fallback_parse_record_shape (file : ZipEntry) (key date : Str)
    (hdir : file.dir = false)
    (hbase : getBaseName file.name =
      lit "Bill_" ++ key ++ '_' :: (date ++ lit ".pdf"))
    (hkey : '_' ∉ key) :
    parseFallbackRowOfFile file =
      (if strTrim key = [] ∨ key = lit "Admin" then none
       else some
        { account_key := strTrim key
          pdf_filename := getBaseName file.name
          zip_entry_path := file.name
          trade_date := if strTrim date = [] then none else some (strTrim date) })
    ∧ parseFallbackRows [file] = (parseFallbackRowOfFile file).toList := by
  refine ⟨?_, ?_⟩
  case refine_2 =>
    cases hf : parseFallbackRowOfFile file <;>
      simp [parseFallbackRows, List.filterMap_cons, hf]
  have hX : getBaseName file.name =
      lit "Bill_" ++ (key ++ '_' :: (date ++ lit ".pdf")) := by
    rw [hbase]
    simp [List.append_assoc]
  have hpre : (lit "Bill_").isPrefixOf (getBaseName file.name) = true := by
    rw [hX]; exact isPrefixOf_append_self _ _
  have hpdfShape : getBaseName file.name =
      (lit "Bill_" ++ key ++ '_' :: date) ++ lit ".pdf" := by
    rw [hbase]
    simp [List.append_assoc]
  have hpdf : isPdf (getBaseName file.name) = true := by
    rw [isPdf, hpdfShape, strToLower_append]
    rw [show strToLower (lit ".pdf") = lit ".pdf" by decide]
    exact isSuffixOf_append_self _ _
  have hbb : getBaseName (getBaseName file.name) = getBaseName file.name :=
    getBaseName_of_no_sep _ (getBaseName_no_sep file.name)
  by_cases hadm : key = lit "Admin"
  · subst hadm
    have hBB : getBaseName file.name =
        lit "Bill_Admin_" ++ (date ++ lit ".pdf") := by
      rw [hX]
      rw [show (lit "Bill_Admin_" : Str) = lit "Bill_" ++ lit "Admin" ++ ['_'] by decide]
      simp [List.append_assoc]
    have hadminT : isIgnoredAdminPdf (getBaseName file.name) = true := by
      rw [isIgnoredAdminPdf]
      simp only [hbb]
      rw [hBB, isPrefixOf_append_self]
      simp
    simp only [parseFallbackRowOfFile, hdir, Bool.false_eq_true, if_false, hpre,
      Bool.not_true, hadminT, Bool.or_true, if_true]
    simp
  · have hadminF : isIgnoredAdminPdf (getBaseName file.name) = false := by
      rw [isIgnoredAdminPdf]
      simp only [hbb]
      have h1 : (lit "Bill_Admin_").isPrefixOf (getBaseName file.name) = false := by
        rw [hX]
        rw [show (lit "Bill_Admin_" : Str) = lit "Bill_" ++ lit "Admin_" by decide]
        rw [isPrefixOf_append_cancel]
        exact Bool.eq_false_iff.mpr
          (fun h => hadm (admin_token_of_isPrefixOf key _ hkey h))
      have h2 : (lit "Summary_Admin_Closing_Adjustment_").isPrefixOf
          (getBaseName file.name) = false := by
        rw [hX]
        rw [show (lit "Summary_Admin_Closing_Adjustment_" : Str) =
          'S' :: lit "ummary_Admin_Closing_Adjustment_" by decide]
        rw [show (lit "Bill_" : Str) = 'B' :: lit "ill_" by decide]
        simp [List.isPrefixOf]
      rw [h1, h2]
      rfl
    have hKD : (getBaseName file.name).drop (lit "Bill_").length =
        key ++ '_' :: (date ++ lit ".pdf") := by
      rw [hX]; exact List.drop_left _ _
    have hidx : firstUnderscoreIdx ((getBaseName file.name).drop (lit "Bill_").length) =
        some key.length := by
      rw [hKD]; exact firstUnderscoreIdx_token key _ hkey
    by_cases hknil : key = []
    · subst hknil
      simp only [parseFallbackRowOfFile, hdir, Bool.false_eq_true, if_false, hpre,
        Bool.not_true, hpdf, hadminF, Bool.or_false, hidx, List.length_nil]
      simp [strTrim]
    · have hklen : ¬ key.length = 0 := by
        simpa [List.length_eq_zero] using hknil
      have hslice : strSlice ((getBaseName file.name).drop (lit "Bill_").length)
          0 key.length = key := by
        rw [strSlice, List.drop_zero, hKD]
        exact List.take_left _ _
      have hlen4 : ((getBaseName file.name).drop (lit "Bill_").length).length -
          (lit ".pdf").length = key.length + 1 + date.length := by
        have h4 : ((lit ".pdf" : Str)).length = 4 := by decide
        rw [hKD]
        simp [List.length_append, h4]
        omega
      have htv : strSlice ((getBaseName file.name).drop (lit "Bill_").length)
          (key.length + 1)
          (((getBaseName file.name).drop (lit "Bill_").length).length -
            (lit ".pdf").length) = date := by
        rw [strSlice, hlen4, hKD]
        rw [show (key ++ '_' :: (date ++ lit ".pdf")) =
          (key ++ '_' :: date) ++ lit ".pdf" by simp]
        rw [show key.length + 1 + date.length = (key ++ '_' :: date).length by
          simp [List.length_append]; omega]
        rw [List.take_left]
        rw [show (key ++ '_' :: date) = (key ++ ['_']) ++ date by simp]
        rw [show key.length + 1 = (key ++ ['_']).length by simp]
        exact List.drop_left _ _
      simp only [parseFallbackRowOfFile, hdir, Bool.false_eq_true, if_false, hpre,
        Bool.not_true, hpdf, hadminF, Bool.or_false, hidx, if_neg hklen, hslice, htv]
      rw [normalizeAccountKey]
      by_cases htr : strTrim key = []
      · rw [if_pos htr, if_pos (Or.inl htr)]
      · have hcond : ¬ (strTrim key = [] ∨ key = lit "Admin") := by
          intro hor
          rcases hor with h | h
          · exact htr h
          · exact hadm h
        rw [if_neg htr, if_neg hcond]

theorem toLower_eq_at_iff (c : Char) : Char.toLower c = '@' ↔ c = '@' := by
  constructor
  · intro h
    rw [Char.toLower] at h
    split at h
    · rename_i hcond
      have hv : (Char.ofNat (c.toNat + 32)).toNat = ('@' : Char).toNat := by rw [h]
      rw [Char.ofNat, dif_pos (Or.inl (by omega))] at hv
      have : c.toNat + 32 = 64 := hv
      omega
    · exact h
  · rintro rfl
    decide

theorem isLocalChar_not_ws (c : Char) (h : isLocalChar c = true) :
    isJsWhitespace c = false := by
  by_contra hws
  rw [Bool.not_eq_false, isJsWhitespace] at hws
  simp only [Bool.or_eq_true, decide_eq_true_eq] at hws
  rcases hws with ((((h1 | h1) | h1) | h1) | h1) | h1 <;> subst h1 <;> simp [isLocalChar] at h

theorem isDomainChar_not_ws (c : Char) (h : isDomainChar c = true) :
    isJsWhitespace c = false := by
  by_contra hws
  rw [Bool.not_eq_false, isJsWhitespace] at hws
  simp only [Bool.or_eq_true, decide_eq_true_eq] at hws
  rcases hws with ((((h1 | h1) | h1) | h1) | h1) | h1 <;> subst h1 <;> simp [isDomainChar] at h

theorem isWordChar_of_not_domain (c : Char) (hd : isDomainChar c = false)
    (hu : c ≠ '_') : isWordChar c = false := by
  rw [isWordChar]
  rw [isDomainChar] at hd
  simp only [Bool.or_eq_false_iff] at hd
  simp [hd.1.1, hu]

theorem strTrim_of_no_ws (s : Str) (h : ∀ c ∈ s, isJsWhitespace c = false) :
    strTrim s = s := by
  rw [strTrim]
  have h1 : s.dropWhile isJsWhitespace = s := by
    cases s with
    | nil => rfl
    | cons c rest =>
      rw [List.dropWhile_cons, if_neg (by simp [h c (List.mem_cons_self c rest)])]
  rw [h1]
  have h2 : s.reverse.dropWhile isJsWhitespace = s.reverse := by
    cases hr : s.reverse with
    | nil => rfl
    | cons c rest =>
      have hc : c ∈ s := by
        rw [← List.mem_reverse, hr]
        exact List.mem_cons_self c rest
      rw [List.dropWhile_cons, if_neg (by simp [h c hc])]
  rw [h2, List.reverse_reverse]

theorem splitOnChar_pair (sep : Char) (a b : Str) (ha : sep ∉ a) (hb : sep ∉ b) :
    splitOnChar sep (a ++ sep :: b) = [a, b] := by
  induction a with
  | nil =>
    simp [splitOnChar, splitOnChar_of_no_sep sep b hb]
  | cons c a2 ih =>
    have hc : ¬ c = sep := fun hc => ha (hc ▸ List.mem_cons_self c a2)
    have ha2 : sep ∉ a2 := fun hm => ha (List.mem_cons_of_mem c hm)
    simp only [List.cons_append, splitOnChar, List.append_eq, ih ha2, if_neg hc]

theorem maskEmail_structure (l dom : Str) (hl : l ≠ []) (hdom : dom ≠ [])
    (hlc : ∀ c ∈ l, isLocalChar c = true) (hdc : ∀ c ∈ dom, isDomainChar c = true) :
    ∃ ml, maskEmail (l ++ '@' :: dom) = ml ++ '@' :: strToLower dom ∧
      '@' ∉ ml ∧ ml ≠ [] ∧ ml.getLast? = some '*' := by
  have hnws : ∀ c ∈ l ++ '@' :: dom, isJsWhitespace c = false := by
    intro c hc
    rcases List.mem_append.mp hc with hc | hc
    · exact isLocalChar_not_ws c (hlc c hc)
    · rcases List.mem_cons.mp hc with rfl | hc
      · decide
      · exact isDomainChar_not_ws c (hdc c hc)
  have htrim : strTrim (l ++ '@' :: dom) = l ++ '@' :: dom :=
    strTrim_of_no_ws _ hnws
  have hlower : strToLower (l ++ '@' :: dom) = strToLower l ++ '@' :: strToLower dom := by
    rw [strToLower, List.map_append, List.map_cons]
    rfl
  have hlat : '@' ∉ strToLower l := by
    intro hm
    rw [strToLower] at hm
    obtain ⟨c, hc, hceq⟩ := List.mem_map.mp hm
    have : c = '@' := (toLower_eq_at_iff c).mp hceq
    subst this
    have := hlc _ hc
    simp [isLocalChar] at this
  have hdat : '@' ∉ strToLower dom := by
    intro hm
    rw [strToLower] at hm
    obtain ⟨c, hc, hceq⟩ := List.mem_map.mp hm
    have : c = '@' := (toLower_eq_at_iff c).mp hceq
    subst this
    have := hdc _ hc
    simp [isDomainChar] at this
  have hsplit : splitOnChar '@' (strToLower l ++ '@' :: strToLower dom) =
      [strToLower l, strToLower dom] :=
    splitOnChar_pair '@' _ _ hlat hdat
  have hlne : strToLower l ≠ [] := by
    cases l with
    | nil => exact absurd rfl hl
    | cons c rest => simp [strToLower]
  have hdne : strToLower dom ≠ [] := by
    cases dom with
    | nil => exact absurd rfl hdom
    | cons c rest => simp [strToLower]
  rw [maskEmail, htrim, hlower, hsplit]
  simp only [List.getD_cons_zero]
  have hget1 : ([strToLower l, strToLower dom] : List Str)[1]? = some (strToLower dom) := rfl
  rw [hget1]
  simp only [hlne, hdne, if_false]
  by_cases hlen : (strToLower l).length ≤ 2
  · rw [if_pos hlen]
    refine ⟨(strToLower l).take 1 ++ lit "***", ?_, ?_, ?_, ?_⟩
    · simp [lit]
    · intro hm
      rcases List.mem_append.mp hm with hm | hm
      · exact hlat (List.mem_of_mem_take hm)
      · simp [lit] at hm
    · simp [lit]
    · rw [List.getLast?_append]
      rfl
  · rw [if_neg hlen]
    refine ⟨(strToLower l).take 2 ++ lit "***", ?_, ?_, ?_, ?_⟩
    · simp [lit]
    · intro hm
      rcases List.mem_append.mp hm with hm | hm
      · exact hlat (List.mem_of_mem_take hm)
      · simp [lit] at hm
    · simp [lit]
    · rw [List.getLast?_append]
      rfl

theorem drop_length_takeWhile (p : Char → Bool) (l : Str) :
    l.drop (l.takeWhile p).length = l.dropWhile p := by
  induction l with
  | nil => rfl
  | cons c rest ih =>
    by_cases hc : p c
    · simp [List.takeWhile_cons, List.dropWhile_cons, hc, ih]
    · simp [List.takeWhile_cons, List.dropWhile_cons, hc]

theorem takeWhile_append_all (p : Char → Bool) (a b : Str)
    (ha : ∀ c ∈ a, p c = true) (hb : ∀ c, b.head? = some c → p c = false) :
    (a ++ b).takeWhile p = a := by
  induction a with
  | nil =>
    cases b with
    | nil => rfl
    | cons c rest =>
      simp [List.takeWhile_cons, hb c rfl]
  | cons c a2 ih =>
    rw [List.cons_append, List.takeWhile_cons,
      if_pos (ha c (List.mem_cons_self c a2))]
    rw [ih (fun c hc => ha c (List.mem_cons_of_mem _ hc))]

theorem pickTld_some_inv (drun : Str) (nx : Option Char) (dpre t leftover : Str)
    (h : pickTld drun nx = some (dpre, t, leftover)) :
    drun = dpre ++ '.' :: (t ++ leftover) ∧ 2 ≤ t.length ∧
      (∀ c ∈ t, c.isAlpha = true) := by
  rw [pickTld] at h
  obtain ⟨x, hx, hfx⟩ := List.exists_of_findSome?_eq_some h
  obtain ⟨j, hj, rfl⟩ := List.mem_map.mp hx
  rw [List.mem_reverse, dotPositions, List.mem_filter, List.mem_range] at hj
  obtain ⟨hjlen, hdot⟩ := hj
  simp only [id_eq] at hfx
  rw [tldAt] at hfx
  dsimp only at hfx
  split at hfx
  · exact absurd hfx (by simp)
  · split at hfx
    · rename_i hj0 hcond
      injection hfx with hfx1
      obtain ⟨rfl, rfl, rfl⟩ : dpre = drun.take j ∧
          t = (drun.drop (j + 1)).takeWhile Char.isAlpha ∧
          leftover = (drun.drop (j + 1)).drop
            ((drun.drop (j + 1)).takeWhile Char.isAlpha).length := by
        have h1 := congrArg Prod.fst hfx1
        have h2 := congrArg (fun q => q.2.1) hfx1
        have h3 := congrArg (fun q => q.2.2) hfx1
        exact ⟨h1.symm, h2.symm, h3.symm⟩
      refine ⟨?_, ?_, ?_⟩
      · have hget : drun[j] = '.' := by
          have := hdot
          simp only [decide_eq_true_eq] at this
          have hj2 : drun[j]? = some '.' := this
          simpa [List.getElem?_eq_getElem hjlen] using hj2
        calc drun = drun.take j ++ drun.drop j := (List.take_append_drop j drun).symm
          _ = drun.take j ++ drun[j] :: drun.drop (j + 1) := by
            rw [List.drop_eq_getElem_cons hjlen]
          _ = drun.take j ++ '.' :: ((drun.drop (j + 1)).takeWhile Char.isAlpha ++
              (drun.drop (j + 1)).drop
                ((drun.drop (j + 1)).takeWhile Char.isAlpha).length) := by
            rw [hget, drop_length_takeWhile, List.takeWhile_append_dropWhile]
      · rw [Bool.and_eq_true] at hcond
        simpa using hcond.1
      · intro c hc
        exact List.mem_takeWhile_imp hc
    · exact absurd hfx (by simp)

theorem matchEmail_self_inv (e : Str) (h : matchEmail none e = some (e, [])) :
    ∃ l dpre t,
      e = l ++ '@' :: (dpre ++ '.' :: t) ∧
      l = e.takeWhile isLocalChar ∧ l ≠ [] ∧
      (∀ c, e.head? = some c → isWordChar c = true) ∧
      e.drop (l.length + 1) = dpre ++ '.' :: t ∧
      (∀ c ∈ dpre ++ '.' :: t, isDomainChar c = true) ∧
      pickTld (dpre ++ '.' :: t) none = some (dpre, t, []) := by
  cases e with
  | nil => exact absurd h (by simp [matchEmail])
  | cons c0 erest =>
  rw [matchEmail] at h
  dsimp only at h
  split at h
  · exact absurd h (by simp)
  · rename_i hbound
    split at h
    · exact absurd h (by simp)
    · rename_i hlne
      split at h
      · rename_i s2 hs2
        split at h
        · rename_i dpre0 t0 leftover0 hpick
          injection h with h1
          have hm := congrArg Prod.fst h1
          have hr := congrArg Prod.snd h1
          simp only at hm hr
          -- hr : leftover0 ++ s2.drop ((s2.takeWhile isDomainChar).length) = []
          have hleft : leftover0 = [] ∧
              s2.drop (s2.takeWhile isDomainChar).length = [] :=
            List.append_eq_nil.mp hr
          have hdw : s2.dropWhile isDomainChar = [] := by
            rw [drop_length_takeWhile] at hleft
            exact hleft.2
          have hall : ∀ x ∈ s2, isDomainChar x = true :=
            List.dropWhile_eq_nil_iff.mp hdw
          have hdrun : s2.takeWhile isDomainChar = s2 :=
            List.takeWhile_eq_self_iff.mpr hall
          rw [hdrun] at hpick
          have hnone : (s2.drop s2.length).head? = none := by simp
          rw [hnone] at hpick
          obtain rfl := hleft.1
          obtain ⟨hs2eq, -, -⟩ := pickTld_some_inv _ _ _ _ _ hpick
          rw [List.append_nil] at hs2eq
          refine ⟨(c0 :: erest).takeWhile isLocalChar, dpre0, t0, hm.symm, rfl, hlne, ?_, ?_, ?_, ?_⟩
          · intro c hc
            injection hc with hc
            subst hc
            have hbT : boundaryB none c0 = true := by
              rcases Bool.eq_false_or_eq_true (boundaryB none c0) with hB | hB
              · first
                | exact hB
                | exact absurd (by simp [hB]) hbound
              · first
                | exact hB
                | exact absurd (by simp [hB]) hbound
            simpa [boundaryB] using hbT
          · have h2 : List.drop (((c0 :: erest).takeWhile isLocalChar).length + 1)
                (c0 :: erest) = s2 := by
              have hd := List.drop_drop (l := c0 :: erest) (n := 1)
                (m := ((c0 :: erest).takeWhile isLocalChar).length)
              rw [hs2] at hd
              simpa [Nat.add_comm] using hd.symm
            rw [h2, ← hs2eq]
          · intro c hc
            rw [← hs2eq] at hc
            exact hall c hc
          · rw [← hs2eq]
            exact hpick
        · exact absurd h (by simp)
      · exact absurd h (by simp)

theorem matchEmail_none_of_head_not_at (prev : Option Char) (s : Str)
    (h : ∀ d tl, s.dropWhile isLocalChar = d :: tl → d ≠ '@') :
    matchEmail prev s = none := by
  cases s with
  | nil => rfl
  | cons c rest =>
    rw [matchEmail]
    dsimp only
    split
    · rfl
    · split
      · rfl
      · split
        · rename_i s2 hs2
          rw [drop_length_takeWhile] at hs2
          exact absurd rfl (h '@' s2 hs2)
        · rfl

theorem matchEmail_none_of_no_at (prev : Option Char) (s : Str) (hat : '@' ∉ s) :
    matchEmail prev s = none := by
  apply matchEmail_none_of_head_not_at
  intro d tl heq
  intro hd
  subst hd
  apply hat
  exact (List.dropWhile_sublist isLocalChar).subset (heq ▸ List.mem_cons_self _ _)

theorem matchEmail_not_at (prev : Option Char) (a rest : Str) (ha : a ≠ [])
    (hat : '@' ∉ a)
    (hlast : ∀ c, a.getLast? = some c → isLocalChar c = false) :
    matchEmail prev (a ++ rest) = none := by
  apply matchEmail_none_of_head_not_at
  intro d tl heq hd
  subst hd
  have hdwa : a.dropWhile isLocalChar ≠ [] := by
    intro hnil
    rw [List.dropWhile_eq_nil_iff] at hnil
    obtain ⟨c, hc⟩ := Option.isSome_iff_exists.mp (List.getLast?_isSome.mpr ha)
    have := hnil c (List.mem_of_mem_getLast? hc)
    rw [hlast c hc] at this
    exact Bool.false_ne_true this
  rw [List.dropWhile_append, if_neg (by simpa using hdwa)] at heq
  have hmem : '@' ∈ a.dropWhile isLocalChar := by
    cases hdw : a.dropWhile isLocalChar with
    | nil => exact absurd hdw hdwa
    | cons d2 tl2 =>
      rw [hdw, List.cons_append] at heq
      injection heq with h1 h2
      rw [← h1]
      exact List.mem_cons_self _ _
  exact hat ((List.dropWhile_sublist isLocalChar).subset hmem)

theorem sanitizeGo_no_at (s : Str) (hat : '@' ∉ s) :
    ∀ fuel prev, sanitizeGo fuel prev s = s := by
  induction s with
  | nil => intro fuel prev; cases fuel <;> rfl
  | cons c rest ih =>
    intro fuel prev
    cases fuel with
    | zero => rfl
    | succ f =>
      rw [sanitizeGo, matchEmail_none_of_no_at prev _ hat]
      rw [ih (fun hm => hat (List.mem_cons_of_mem c hm)) f (some c)]

theorem sanitizeGo_pass (pre rest : Str) (hat : '@' ∉ pre)
    (hlast : ∀ c, pre.getLast? = some c → isLocalChar c = false) :
    ∀ fr prev, sanitizeGo (pre.length + fr) prev (pre ++ rest) =
      pre ++ sanitizeGo fr
        (match pre.getLast? with
          | some c => some c
          | none => prev) rest := by
  induction pre with
  | nil =>
    intro fr prev
    simp [List.getLast?]
  | cons c pre2 ih =>
    intro fr prev
    have hmatch : matchEmail prev ((c :: pre2) ++ rest) = none :=
      matchEmail_not_at prev (c :: pre2) rest (by simp) hat hlast
    have hat2 : '@' ∉ pre2 := fun hm => hat (List.mem_cons_of_mem c hm)
    have hlast2 : ∀ d, pre2.getLast? = some d → isLocalChar d = false := by
      intro d hd
      apply hlast
      rw [List.getLast?_cons, hd]
      rfl
    have hlc : (c :: pre2).length + fr = (pre2.length + fr) + 1 := by
      simp [List.length_cons]
      omega
    rw [hlc]
    rw [show (c :: pre2) ++ rest = c :: (pre2 ++ rest) from rfl]
    rw [sanitizeGo]
    rw [show matchEmail prev (c :: (pre2 ++ rest)) = none from hmatch]
    rw [ih hat2 hlast2 fr (some c)]
    rw [List.getLast?_cons]
    cases hl2 : pre2.getLast? with
    | none => rfl
    | some d => rfl

theorem append_sep_inj (sep : Char) (a b a2 b2 : Str) (ha : sep ∉ a)
    (ha2 : sep ∉ a2) (h : a ++ sep :: b = a2 ++ sep :: b2) : a = a2 ∧ b = b2 := by
  induction a generalizing a2 with
  | nil =>
    cases a2 with
    | nil =>
      simp only [List.nil_append] at h
      injection h with h1 h2
      exact ⟨rfl, h2⟩
    | cons c2 a2r =>
      simp only [List.nil_append, List.cons_append] at h
      injection h with h1 h2
      exact absurd (h1 ▸ List.mem_cons_self c2 a2r) (h1 ▸ ha2)
  | cons c ar ih =>
    cases a2 with
    | nil =>
      simp only [List.cons_append, List.nil_append] at h
      injection h with h1 h2
      exact absurd (h1.symm ▸ List.mem_cons_self c ar) (h1.symm ▸ ha)
    | cons c2 a2r =>
      simp only [List.cons_append] at h
      injection h with h1 h2
      obtain ⟨hh, hb⟩ := ih a2r (fun hm => ha (List.mem_cons_of_mem c hm))
        (fun hm => ha2 (List.mem_cons_of_mem c2 hm)) h2
      exact ⟨by rw [h1, hh], hb⟩

theorem tldAt_boundary_congr (drun : Str) (c : Char) (hw : isWordChar c = false)
    (j : Nat) : tldAt drun (some c) j = tldAt drun none j := by
  rw [tldAt, tldAt]
  dsimp only
  by_cases hj : j = 0
  · simp [hj]
  · rw [if_neg hj, if_neg hj]
    cases hl : (drun.drop (j + 1)).drop
        (((drun.drop (j + 1)).takeWhile Char.isAlpha).length) with
    | nil => simp [hw]
    | cons d tl => rfl

theorem pickTld_boundary_congr (drun : Str) (c : Char)
    (hw : isWordChar c = false) :
    pickTld drun (some c) = pickTld drun none := by
  rw [pickTld, pickTld]
  rw [List.map_congr_left (fun j _ => tldAt_boundary_congr drun c hw j)]

theorem matchEmail_embedded (e suf : Str) (prev : Option Char)
    (hmatch : matchEmail none e = some (e, []))
    (hprev : ∀ c, prev = some c → isWordChar c = false)
    (hsuf : ∀ c, suf.head? = some c → isDomainChar c = false ∧ c ≠ '_') :
    matchEmail prev (e ++ suf) = some (e, suf) := by
  obtain ⟨l, dpre, t, he, hlWhile, hlne, hhead, hdrop, hdomAll, hpick⟩ :=
    matchEmail_self_inv e hmatch
  have hlAll : ∀ c ∈ l, isLocalChar c = true := by
    intro c hc
    rw [hlWhile] at hc
    exact List.mem_takeWhile_imp hc
  have hesuf : e ++ suf = l ++ '@' :: ((dpre ++ '.' :: t) ++ suf) := by
    rw [he]
    simp
  cases e with
  | nil => exact absurd (List.append_eq_nil.mp he.symm).1 hlne
  | cons c0 er =>
  rw [show ((c0 :: er) ++ suf : Str) = c0 :: (er ++ suf) from rfl]
  rw [matchEmail]
  dsimp only
  have hbound : boundaryB prev c0 = true := by
    have hw0 : isWordChar c0 = true := hhead c0 rfl
    cases hp : prev with
    | none => simp [boundaryB, hw0]
    | some p => simp [boundaryB, hw0, hprev p hp]
  have htake : (c0 :: (er ++ suf)).takeWhile isLocalChar = l := by
    rw [show (c0 :: (er ++ suf)) = (c0 :: er) ++ suf from rfl, hesuf]
    exact takeWhile_append_all isLocalChar l ('@' :: ((dpre ++ '.' :: t) ++ suf))
      hlAll (fun c hc => by injection hc with hc; subst hc; decide)
  rw [hbound]
  simp only [Bool.not_true, Bool.false_eq_true, if_false]
  rw [htake, if_neg hlne]
  have hdrop2 : (c0 :: (er ++ suf)).drop l.length =
      '@' :: ((dpre ++ '.' :: t) ++ suf) := by
    rw [show (c0 :: (er ++ suf)) = (c0 :: er) ++ suf from rfl, hesuf]
    exact List.drop_left _ _
  rw [hdrop2]
  split
  case h_2 =>
    rename_i hne
    exact absurd rfl (hne _)
  case h_1 =>
    rename_i htail
    injection htail with hhead2 htail2
    subst htail2
    have hdomSuf : ((dpre ++ '.' :: t) ++ suf).takeWhile isDomainChar =
        dpre ++ '.' :: t :=
      takeWhile_append_all isDomainChar _ suf hdomAll
        (fun c hc => (hsuf c hc).1)
    have hTW : (dpre ++ '.' :: t ++ suf).takeWhile isDomainChar =
        dpre ++ '.' :: t := by
      simpa [List.append_assoc] using hdomSuf
    have hDR : (dpre ++ '.' :: t ++ suf).drop (dpre ++ '.' :: t).length = suf := by
      have := List.drop_left (dpre ++ '.' :: t) suf
      simpa [List.append_assoc] using this
    rw [hTW, hDR]
    have hpick2 : pickTld (dpre ++ '.' :: t) suf.head? = some (dpre, t, []) := by
      cases hs : suf with
      | nil => simpa using hpick
      | cons cs ss =>
        have hcs := hsuf cs (by rw [hs]; rfl)
        rw [show (cs :: ss).head? = some cs from rfl]
        rw [pickTld_boundary_congr _ cs (isWordChar_of_not_domain cs hcs.1 hcs.2)]
        exact hpick
    rw [hpick2]
    rw [he]
    simp

theorem sanitize_masks (pre e suf : Str)
    (hmatch : matchEmail none e = some (e, []))
    (hpreat : '@' ∉ pre) (hsufat : '@' ∉ suf)
    (hprelast : ∀ c, pre.getLast? = some c → isLocalChar c = false)
    (hsufhead : ∀ c, suf.head? = some c → isDomainChar c = false ∧ c ≠ '_') :
    sanitizeErrorMessage (pre ++ e ++ suf) = pre ++ maskEmail e ++ suf
    ∧ ¬ ∃ x y, pre ++ maskEmail e ++ suf = x ++ e ++ y := by
  obtain ⟨l, dpre, t, he, hlWhile, hlne, hhead, hdrop, hdomAll, hpick⟩ :=
    matchEmail_self_inv e hmatch
  have hlAll : ∀ c ∈ l, isLocalChar c = true := fun c hc =>
    List.mem_takeWhile_imp (hlWhile ▸ hc)
  have hpart1 : sanitizeErrorMessage (pre ++ e ++ suf) = pre ++ maskEmail e ++ suf := by
    rw [sanitizeErrorMessage]
    have hassoc : pre ++ e ++ suf = pre ++ (e ++ suf) := by
      simp [List.append_assoc]
    rw [hassoc]
    have hlen : (pre ++ (e ++ suf)).length = pre.length + (e ++ suf).length := by
      simp [List.length_append]
    rw [hlen]
    rw [sanitizeGo_pass pre (e ++ suf) hpreat hprelast ((e ++ suf).length) none]
    have hprev : ∀ c, (match pre.getLast? with
        | some c => some c
        | none => (none : Option Char)) = some c → isWordChar c = false := by
      intro c hc
      cases hl : pre.getLast? with
      | none => rw [hl] at hc; exact absurd hc (by simp)
      | some d =>
        rw [hl] at hc
        have hdc : d = c := by injection hc
        rw [← hdc]
        have hlocF := hprelast d hl
        cases hal : d.isAlphanum with
        | true =>
          rw [isLocalChar, hal] at hlocF
          simp at hlocF
        | false =>
          cases hun : (decide (d = '_')) with
          | true =>
            have hdu : d = '_' := of_decide_eq_true hun
            rw [hdu] at hlocF
            exact absurd hlocF (by decide)
          | false =>
            rw [isWordChar, hal, hun]
            rfl
    cases e with
    | nil => exact absurd hmatch (by simp [matchEmail])
    | cons c0 er =>
      have hemb := matchEmail_embedded (c0 :: er) suf _ hmatch hprev hsufhead
      rw [show ((c0 :: er) ++ suf : Str) = c0 :: (er ++ suf) from rfl] at hemb
      rw [show ((c0 :: er) ++ suf : Str) = c0 :: (er ++ suf) from rfl]
      rw [show (c0 :: (er ++ suf)).length = (er ++ suf).length + 1 from by simp]
      rw [sanitizeGo]
      simp only [hemb]
      rw [sanitizeGo_no_at suf hsufat ((er ++ suf)).length ((c0 :: er).getLast?)]
      simp [List.append_assoc]
  refine ⟨hpart1, ?_⟩
  rintro ⟨x, y, hxy⟩
  obtain ⟨ml, hmask, hmlat, hmlne, hmllast⟩ :=
    maskEmail_structure l (dpre ++ '.' :: t) hlne (by simp) hlAll hdomAll
  have hmdat : '@' ∉ strToLower (dpre ++ '.' :: t) := by
    intro hm
    obtain ⟨c, hc, hceq⟩ := List.mem_map.mp hm
    have hcat : c = '@' := (toLower_eq_at_iff c).mp hceq
    subst hcat
    have := hdomAll '@' hc
    simp [isDomainChar] at this
  have hlat : '@' ∉ l := by
    intro hm
    have := hlAll '@' hm
    simp [isLocalChar] at this
  have hDat : '@' ∉ dpre ++ '.' :: t := by
    intro hm
    have := hdomAll '@' hm
    simp [isDomainChar] at this
  have hout1 : pre ++ maskEmail e ++ suf =
      (pre ++ ml) ++ '@' :: (strToLower (dpre ++ '.' :: t) ++ suf) := by
    rw [he, hmask]
    simp [List.append_assoc]
  have hout2 : x ++ e ++ y = (x ++ l) ++ '@' :: ((dpre ++ '.' :: t) ++ y) := by
    rw [he]
    simp [List.append_assoc]
  have hEq : (pre ++ ml) ++ '@' :: (strToLower (dpre ++ '.' :: t) ++ suf) =
      (x ++ l) ++ '@' :: ((dpre ++ '.' :: t) ++ y) := by
    rw [← hout1, hxy, hout2]
  have hxat : '@' ∉ x := by
    have hcounts := congrArg (List.count '@') hEq
    have hz1 : List.count '@' pre = 0 := List.count_eq_zero.mpr hpreat
    have hz2 : List.count '@' ml = 0 := List.count_eq_zero.mpr hmlat
    have hz3 : List.count '@' (strToLower (dpre ++ '.' :: t)) = 0 :=
      List.count_eq_zero.mpr hmdat
    have hz4 : List.count '@' suf = 0 := List.count_eq_zero.mpr hsufat
    have hz5 : List.count '@' l = 0 := List.count_eq_zero.mpr hlat
    have hz6 : List.count '@' dpre = 0 := by
      rw [List.count_eq_zero]
      intro hm
      exact hDat (List.mem_append_left _ hm)
    have hz7 : List.count '@' t = 0 := by
      rw [List.count_eq_zero]
      intro hm
      exact hDat (List.mem_append_right _ (List.mem_cons_of_mem _ hm))
    simp [List.count_append, List.count_cons, hz1, hz2, hz3, hz4, hz5, hz6, hz7]
      at hcounts
    rw [← List.count_eq_zero]
    omega
  obtain ⟨hpm, _⟩ := append_sep_inj '@' (pre ++ ml)
    (strToLower (dpre ++ '.' :: t) ++ suf) (x ++ l) ((dpre ++ '.' :: t) ++ y)
    (by
      intro hm
      rcases List.mem_append.mp hm with h | h
      · exact hpreat h
      · exact hmlat h)
    (by
      intro hm
      rcases List.mem_append.mp hm with h | h
      · exact hxat h
      · exact hlat h)
    hEq
  have hstar : (x ++ l).getLast? = some '*' := by
    rw [← hpm, List.getLast?_append, hmllast]
    rfl
  obtain ⟨lc, hlc⟩ := Option.isSome_iff_exists.mp ((List.getLast?_isSome).mpr hlne)
  have hlcl : isLocalChar lc = true := hlAll lc (List.mem_of_mem_getLast? hlc)
  rw [List.getLast?_append, hlc] at hstar
  simp at hstar
  rw [hstar] at hlcl
  exact absurd hlcl (by decide)

set_option maxHeartbeats 2000000 in
/-- Claim C5 counterexample: the address a@b.c passes the route's own recipient validation, yet a transport error message embedding it is stored verbatim in the send log and still contains the literal address: its single-letter top-level domain falls outside the masking pattern, so sanitization leaves it untouched. -/
theorem transport_error_unmasked_counterexample :
    validEmailB (lit "a@b.c") = true ∧
    (sendEmailPOST
      { authenticated := true, userId := some (lit "op-1"), userEmailAdmin := true
        gmailSenderEmail := some (lit "sender@alphatech.example"), dryRun := false
        transport := .threw (lit "recipient a@b.c rejected") }
      (some
        { zip_filename := some (lit "batch.zip"), account_key := some (lit "PR20")
          trade_date := none, to_email := some (lit "a@b.c"), to_name := none
          filename := some (lit "Bill_PR20.pdf")
          pdf_base64 := some (lit "QUJD") })).logs =
      [{ zip_filename := lit "batch.zip", account_key := lit "PR20"
         trade_date := none, to_email := lit "a@b.c", to_name := none
         status := lit "failed", error := some (lit "recipient a@b.c rejected")
         message_id := none, sent_by_auth_user_id := lit "op-1" }] ∧
    (lit "recipient a@b.c rejected" : Str) =
      lit "recipient " ++ lit "a@b.c" ++ lit " rejected" := by
  refine ⟨by decide, by decide, by decide⟩

/-- Claim C5 (amended): when the transport throws, the attempt is recorded with status failed and the stored and returned error message is the sanitized message: every embedded substring matching the masking pattern (ASCII local part, dotted top-level domain of two or more letters, word boundaries) is replaced by its mask, and the literal matched address no longer occurs anywhere in the stored message. -/
theorem transport_error_masked (env : RouteEnv) (body : SendEmailBody) (uid : Str)
    (rawMessage pre e suf : Str)
    (hauth : env.authenticated = true) (huser : env.userId = some uid)
    (hadmin : env.userEmailAdmin = true)
    (hvalid : validSendInputs body = true)
    (hs1 : strTrim (env.gmailSenderEmail.getD []) ≠ [])
    (hs2 : validEmailB (strTrim (env.gmailSenderEmail.getD [])) = true)
    (hdry : env.dryRun = false)
    (hthrew : env.transport = .threw rawMessage)
    (hmsg : rawMessage = pre ++ e ++ suf)
    (hne : strTrim rawMessage ≠ [])
    (hmatch : matchEmail none e = some (e, []))
    (hpreat : '@' ∉ pre) (hsufat : '@' ∉ suf)
    (hprelast : ∀ c, pre.getLast? = some c → isLocalChar c = false)
    (hsufhead : ∀ c, suf.head? = some c → isDomainChar c = false ∧ c ≠ '_') :
    (sendEmailPOST env (some body)).logs =
      [{ zip_filename := toStringOrEmpty body.zip_filename
         account_key := toStringOrEmpty body.account_key
         trade_date := if toStringOrEmpty body.trade_date = [] then none
           else some (toStringOrEmpty body.trade_date)
         to_email := strToLower (toStringOrEmpty body.to_email)
         to_name := if toStringOrEmpty body.to_name = [] then none
           else some (toStringOrEmpty body.to_name)
         status := lit "failed"
         error := some (pre ++ maskEmail e ++ suf)
         message_id := none
         sent_by_auth_user_id := uid }] ∧
    (sendEmailPOST env (some body)).response =
      { ok := false, status := 500, error := some (pre ++ maskEmail e ++ suf)
        dryRun := false, messageId := none } ∧
    (sendEmailPOST env (some body)).mailCalled = true ∧
    ¬ ∃ x y, pre ++ maskEmail e ++ suf = x ++ e ++ y := by
  obtain ⟨hsan1, hsan2⟩ :=
    sanitize_masks pre e suf hmatch hpreat hsufat hprelast hsufhead
  have hsan1' : sanitizeErrorMessage (pre ++ (e ++ suf)) =
      pre ++ (maskEmail e ++ suf) := by
    rw [← List.append_assoc, ← List.append_assoc]
    exact hsan1
  rw [validSendInputs] at hvalid
  simp only [Bool.and_eq_true, ne_eq, decide_eq_true_eq] at hvalid
  obtain ⟨⟨⟨⟨⟨h1, h2⟩, h3⟩, h4⟩, h5⟩, h6⟩ := hvalid
  have h3m : '@' ∈ strToLower (toStringOrEmpty body.to_email) := by
    simpa using h3.2
  have hne' : strTrim (pre ++ (e ++ suf)) ≠ [] := by
    rw [← List.append_assoc]
    rw [hmsg] at hne
    exact hne
  have hcall : sendEmailPOST env (some body) =
      ⟨{ ok := false, status := 500, error := some (pre ++ maskEmail e ++ suf)
         dryRun := false, messageId := none },
       [{ zip_filename := toStringOrEmpty body.zip_filename
          account_key := toStringOrEmpty body.account_key
          trade_date := if toStringOrEmpty body.trade_date = [] then none
            else some (toStringOrEmpty body.trade_date)
          to_email := strToLower (toStringOrEmpty body.to_email)
          to_name := if toStringOrEmpty body.to_name = [] then none
            else some (toStringOrEmpty body.to_name)
          status := lit "failed"
          error := some (pre ++ maskEmail e ++ suf)
          message_id := none
          sent_by_auth_user_id := uid }], true⟩ := by
    simp only [sendEmailPOST, hauth, huser, hadmin, hdry, hthrew, hmsg]
    simp [h1, h2, h3.1, h3m, h4, h5, h6, hs1, hs2, hne', hsan1']
  exact ⟨by rw [hcall], by rw [hcall], by rw [hcall], hsan2⟩

set_option maxHeartbeats 2000000 in
theorem transport_error_masked_witness :
    (sendEmailPOST
      { authenticated := true, userId := some (lit "op-1"), userEmailAdmin := true
        gmailSenderEmail := some (lit "sender@alphatech.example"), dryRun := false
        transport := .threw (lit "mail to john@example.com failed") }
      (some
        { zip_filename := some (lit "batch.zip"), account_key := some (lit "PR20")
          trade_date := none, to_email := some (lit "alice@example.com")
          to_name := none, filename := some (lit "Bill_PR20.pdf")
          pdf_base64 := some (lit "QUJD") })).response.error =
      some (lit "mail to " ++ maskEmail (lit "john@example.com") ++ lit " failed") ∧
    ¬ ∃ x y, lit "mail to " ++ maskEmail (lit "john@example.com") ++ lit " failed" =
      x ++ lit "john@example.com" ++ y :=
  have h := transport_error_masked
    { authenticated := true, userId := some (lit "op-1"), userEmailAdmin := true
      gmailSenderEmail := some (lit "sender@alphatech.example"), dryRun := false
      transport := .threw (lit "mail to john@example.com failed") }
    { zip_filename := some (lit "batch.zip"), account_key := some (lit "PR20")
      trade_date := none, to_email := some (lit "alice@example.com")
      to_name := none, filename := some (lit "Bill_PR20.pdf")
      pdf_base64 := some (lit "QUJD") }
    (lit "op-1") (lit "mail to john@example.com failed")
    (lit "mail to ") (lit "john@example.com") (lit " failed")
    rfl rfl rfl (by decide) (by decide) (by decide) rfl rfl (by decide) (by decide)
    (by decide) (by decide) (by decide)
    (by
      intro c hc
      have h0 : (lit "mail to " : Str).getLast? = some ' ' := by decide
      rw [h0] at hc
      have hcs : ' ' = c := by injection hc
      rw [← hcs]
      decide)
    (by
      intro c hc
      have h0 : (lit " failed" : Str).head? = some ' ' := by decide
      rw [h0] at hc
      have hcs : ' ' = c := by injection hc
      rw [← hcs]
      exact ⟨by decide, by decide⟩)
  ⟨by rw [h.2.1], h.2.2.2⟩

theorem fallback_parse_shape_witness :
    parseFallbackRowOfFile ⟨lit "Bill_PR20_2024-01-05.pdf", false⟩ =
      (if strTrim (lit "PR20") = [] ∨ (lit "PR20" : Str) = lit "Admin" then none
       else some
        { account_key := strTrim (lit "PR20")
          pdf_filename := getBaseName (lit "Bill_PR20_2024-01-05.pdf")
          zip_entry_path := lit "Bill_PR20_2024-01-05.pdf"
          trade_date := if strTrim (lit "2024-01-05") = [] then none
            else some (strTrim (lit "2024-01-05")) })
    ∧ parseFallbackRows [⟨lit "Bill_PR20_2024-01-05.pdf", false⟩] =
      (parseFallbackRowOfFile ⟨lit "Bill_PR20_2024-01-05.pdf", false⟩).toList :=
  fallback_parse_record_shape ⟨lit "Bill_PR20_2024-01-05.pdf", false⟩ (lit "PR20")
    (lit "2024-01-05") rfl (by decide) (by decide)

end AlphaTechX
